import Mathlib

/-!
# libc_test: alignment / fencepost harness for strcmp, memcpy and memset

A shallow embedding of `src/libc_test/main.cpp`.

* Addresses are natural numbers; `uint64_t` arithmetic wraps modulo `2 ^ 64`.
* A C `int` is an `Int`; its conversion to `uint64_t` is `toU64`.
* Memory is a total map from addresses to byte values; a store truncates the
  stored value to 8 bits.
* A primitive under test is a function on memory states.
-/

namespace LibcTest

/-! ## Constants (lines 26-35) -/

def FENCEPOST_LENGTH : Nat := 8

def MAX_MEMCPY_TEST_SIZE : Nat := 2048
def MAX_MEMCPY_BUFFER_SIZE : Nat := 3 * MAX_MEMCPY_TEST_SIZE

def MAX_MEMSET_TEST_SIZE : Nat := 2048
def MAX_MEMSET_BUFFER_SIZE : Nat := 3 * MAX_MEMSET_TEST_SIZE

def MAX_STRCMP_TEST_SIZE : Nat := 1024
def MAX_STRCMP_BUFFER_SIZE : Nat := 3 * MAX_STRCMP_TEST_SIZE

/-! ## Machine integers -/

/-- Conversion of a C `int` (or of an intermediate signed result) to `uint64_t`:
the value modulo `2 ^ 64`. -/
def toU64 (x : Int) : Nat := (x % 2 ^ 64).toNat

/-! ## getAlignedPtr (lines 38-49) -/

/-- Source `getAlignedPtr`. `orig_ptr` is the address held by the pointer; the two
`reinterpret_cast`s do not change it.  Line 44 is `ptr += alignment - (ptr & (alignment - 1))`
in `uint64_t` arithmetic (the subtraction and the addition both wrap), line 45 is
`ptr |= alignment | or_mask` where the `int` value `alignment | or_mask` is converted
to `uint64_t`. -/
def getAlignedPtr (orig_ptr : Nat) (alignment or_mask : Int) : Nat :=
  let ptr := orig_ptr
  if alignment > 0 then
    let low := ptr &&& toU64 (alignment - 1)
    let delta := toU64 ((toU64 alignment : Int) - (low : Int))
    let ptr := (ptr + delta) % 2 ^ 64
    ptr ||| toU64 (Int.lor alignment or_mask)
  else
    ptr

/-! ## Memory -/

/-- Byte-addressed memory: the byte value held at each address. -/
abbrev Mem := Nat → Nat

/-- A store of one byte: `p[0] = v`, the value truncated to 8 bits. -/
def store (m : Mem) (addr v : Nat) : Mem :=
  fun x => if x = addr then v % 256 else m x

/-- The C library's `memset(s, c, n)`, as the harness itself calls it at line 446. -/
def libcMemset (m : Mem) (s c n : Nat) : Mem :=
  fun x => if s ≤ x ∧ x < s + n then c % 256 else m x

/-! ## Fenceposts (lines 51-74) -/

/-- The values taken by `i` in `for (int i = 0; i < FENCEPOST_LENGTH; i += 2)`. -/
def fencepostIndices : List Nat := List.range' 0 (FENCEPOST_LENGTH / 2) 2

/-- Source `setFencepost`: each trip stores `0xde` at `buffer[i]` and `0xad` at
`buffer[i+1]`. -/
def setFencepost (m : Mem) (buffer : Nat) : Mem :=
  fencepostIndices.foldl
    (fun m i => store (store m (buffer + i) 0xde) (buffer + (i + 1)) 0xad) m

/-- The three values printed by `verifyFencepost` at lines 68-69. -/
structure FenceMismatch where
  index : Nat
  expected : Nat
  found : Nat
deriving DecidableEq, Repr

/-- The loop of `verifyFencepost` (lines 59-72) over the remaining values of `i`:
`some` report when the `return false` of line 70 is taken, `none` when the loop runs
to its end. -/
def verifyFencepostLoop (m : Mem) (buffer : Nat) : List Nat → Option FenceMismatch
  | [] => none
  | i :: rest =>
    if m (buffer + i) ≠ 0xde ∨ m (buffer + (i + 1)) ≠ 0xad then
      if m (buffer + i) = 0xde then
        some ⟨i + 1, 0xad, m (buffer + (i + 1))⟩
      else
        some ⟨i, 0xde, m (buffer + i)⟩
    else
      verifyFencepostLoop m buffer rest

/-- What `verifyFencepost` prints, if anything. -/
def verifyFencepostReport (m : Mem) (buffer : Nat) : Option FenceMismatch :=
  verifyFencepostLoop m buffer fencepostIndices

/-- Source `verifyFencepost`: `true` exactly when no mismatch is reported. -/
def verifyFencepost (m : Mem) (buffer : Nat) : Bool :=
  (verifyFencepostReport m buffer).isNone

/-- The sentinel byte expected at offset `k` of a fencepost: `0xde` at even offsets,
`0xad` at odd ones. -/
def fenceByte (k : Nat) : Nat := if k % 2 = 0 then 0xde else 0xad

/-- The fencepost at `p` is intact: its 8 bytes hold the sentinel pattern. -/
def FenceIntact (m : Mem) (p : Nat) : Prop :=
  ∀ k, k < FENCEPOST_LENGTH → m (p + k) = fenceByte k

/-! ## Pattern generator (lines 84, 121, 210, 267) -/

/-- The expression `(char)(32 + (j % 96))`. -/
def patternChar (j : Nat) : Nat := (32 + j % 96) % 256

/-! ## Copy driver: runMemcpyTest (lines 350-490) -/

/-- A row of an `int [][4]` alignment table. -/
structure Align4 where
  a0 : Int
  a1 : Int
  a2 : Int
  a3 : Int
deriving DecidableEq, Repr

/-- A copy primitive `test_memcpy(dst, src, n)`: the memory it leaves. The pointer it
returns is discarded by the driver (line 454). -/
abbrev MemcpyFn := Mem → Nat → Nat → Nat → Mem

/-- The table `aligns` of lines 371-424. -/
def memcpyAligns : List Align4 :=
  [ ⟨0, 0, 0, 0⟩,
    ⟨1, 0, 1, 0⟩, ⟨2, 0, 2, 0⟩, ⟨4, 0, 4, 0⟩, ⟨8, 0, 8, 0⟩,
    ⟨16, 0, 16, 0⟩, ⟨32, 0, 32, 0⟩, ⟨64, 0, 64, 0⟩, ⟨128, 0, 128, 0⟩,
    ⟨8, 0, 4, 0⟩, ⟨4, 0, 8, 0⟩, ⟨16, 0, 4, 0⟩, ⟨4, 0, 16, 0⟩,
    ⟨4, 0, 4, 1⟩, ⟨4, 0, 4, 2⟩, ⟨4, 0, 4, 3⟩,
    ⟨4, 1, 4, 0⟩, ⟨4, 2, 4, 0⟩, ⟨4, 3, 4, 0⟩,
    ⟨4, 1, 4, 0⟩, ⟨4, 1, 4, 1⟩, ⟨4, 1, 4, 2⟩, ⟨4, 1, 4, 3⟩,
    ⟨4, 2, 4, 0⟩, ⟨4, 2, 4, 1⟩, ⟨4, 2, 4, 2⟩, ⟨4, 2, 4, 3⟩,
    ⟨4, 3, 4, 0⟩, ⟨4, 3, 4, 1⟩, ⟨4, 3, 4, 2⟩, ⟨4, 3, 4, 3⟩,
    ⟨2, 0, 4, 0⟩, ⟨4, 0, 2, 0⟩, ⟨2, 0, 2, 0⟩,
    ⟨128, 1, 128, 4⟩, ⟨128, 1, 128, 8⟩, ⟨128, 1, 128, 12⟩, ⟨128, 1, 128, 16⟩ ]

/-- Lines 365-368, one trip of the loop: `src[i] = i % 256`, then a zero is replaced
by `0xaa`. -/
def memcpyInitStep (src : Nat) (m : Mem) (i : Nat) : Mem :=
  let m := store m (src + i) (i % 256)
  if m (src + i) = 0 then store m (src + i) 0xaa else m

/-- Lines 364-369: the source pattern is written once. -/
def memcpyInitSrc (m : Mem) (src : Nat) : Mem :=
  (List.range MAX_MEMCPY_BUFFER_SIZE).foldl (memcpyInitStep src) m

/-- Lines 430-438, `src_align`: both pointers are selected by `aligns[i][0]`. -/
def memcpySrcAlign (src : Nat) (e : Align4) : Nat :=
  if e.a0 ≠ 0 then getAlignedPtr (src + FENCEPOST_LENGTH) e.a0 e.a1 else src

/-- Lines 430-438, `dst_align`. -/
def memcpyDstAlign (dst : Nat) (e : Align4) : Nat :=
  if e.a0 ≠ 0 then getAlignedPtr (dst + FENCEPOST_LENGTH) e.a2 e.a3 else dst

/-- Lines 446-454 of one trip: the destination is zeroed, the fenceposts are set (the one
before the array at `&dst_align[-8]`, only when `dst_align != dst`) and the primitive is
called. The result is the memory immediately after the primitive's call. -/
def memcpyCall (test_memcpy : MemcpyFn) (dst src : Nat) (e : Align4) (len : Nat)
    (m : Mem) : Mem :=
  let src_align := memcpySrcAlign src e
  let dst_align := memcpyDstAlign dst e
  let m := libcMemset m dst_align 0 len
  let m := if dst_align ≠ dst then setFencepost m (dst_align - 8) else m
  let m := setFencepost m (dst_align + len)
  test_memcpy m dst_align src_align len

/-- Lines 456-469: the byte loop; `false` when its `return false` is taken. -/
def memcpyBytesOk (m : Mem) (dst_align src_align len : Nat) : Bool :=
  (List.range len).all
    (fun j => !(m (dst_align + j) != m (src_align + j) || m (src_align + j) == 0))

/-- Lines 456-483: the three verifications of one trip; `false` when one of the three
`return false` is taken. -/
def memcpyVerify (m : Mem) (dst dst_align src_align len : Nat) : Bool :=
  if !memcpyBytesOk m dst_align src_align len then false
  else if dst_align ≠ dst ∧ verifyFencepost m (dst_align - 8) = false then false
  else if verifyFencepost m (dst_align + len) = false then false
  else true

/-- Outcome of a sweep over an alignment table: it ran to its end, leaving a memory, or
it took a `return false` in the trip of table row `row` and length `len`. -/
inductive Sweep where
  | done (m : Mem)
  | failed (row len : Nat)

/-- The sweep ran to its end. -/
def Sweep.passed : Sweep → Bool
  | .done _ => true
  | .failed _ _ => false

/-- The inner loop of line 429 for table row `i` (holding `e`), over the remaining values
of `len`. Verification does not write memory, so the next trip starts from the memory
left by the primitive's call. -/
def memcpyLenLoop (test_memcpy : MemcpyFn) (dst src i : Nat) (e : Align4) :
    List Nat → Mem → Sweep
  | [], m => .done m
  | len :: rest, m =>
    let m := memcpyCall test_memcpy dst src e len m
    if memcpyVerify m dst (memcpyDstAlign dst e) (memcpySrcAlign src e) len then
      memcpyLenLoop test_memcpy dst src i e rest m
    else
      .failed i len

/-- The outer loop of line 428 over the remaining rows, the first of them being row `i`;
`len` takes the values `0, ..., MAX_MEMCPY_TEST_SIZE`. -/
def memcpyRowLoop (test_memcpy : MemcpyFn) (dst src : Nat) :
    Nat → List Align4 → Mem → Sweep
  | _, [], m => .done m
  | i, e :: rest, m =>
    match memcpyLenLoop test_memcpy dst src i e (List.range (MAX_MEMCPY_TEST_SIZE + 1)) m with
    | .done m => memcpyRowLoop test_memcpy dst src (i + 1) rest m
    | .failed row len => .failed row len

/-- Lines 364-485: the source pattern is written, then the table is swept. -/
def memcpySweep (test_memcpy : MemcpyFn) (m : Mem) (dst src : Nat) : Sweep :=
  memcpyRowLoop test_memcpy dst src 0 memcpyAligns (memcpyInitSrc m src)

/-- Source `runMemcpyTest`. `dst` and `src` are the addresses returned by the two `malloc`
calls (0 for `NULL`), `m` the memory at entry. -/
def runMemcpyTest (test_memcpy : MemcpyFn) (m : Mem) (dst src : Nat) : Bool :=
  if dst = 0 ∨ src = 0 then false
  else (memcpySweep test_memcpy m dst src).passed

/-! ### The states the copy driver goes through

These definitions replay the trips of the driver without their verifications; they name
the memory state of each trip. -/

/-- Memory after the trips `len = 0, ..., n - 1` of row `e`, entered with memory `m`. -/
def memcpyAfterLens (test_memcpy : MemcpyFn) (dst src : Nat) (e : Align4) : Nat → Mem → Mem
  | 0, m => m
  | n + 1, m => memcpyCall test_memcpy dst src e n (memcpyAfterLens test_memcpy dst src e n m)

/-- Memory after all the trips of the rows `es`, entered with memory `m`. -/
def memcpyAfterRows (test_memcpy : MemcpyFn) (dst src : Nat) : List Align4 → Mem → Mem
  | [], m => m
  | e :: rest, m =>
    memcpyAfterRows test_memcpy dst src rest
      (memcpyAfterLens test_memcpy dst src e (MAX_MEMCPY_TEST_SIZE + 1) m)

/-- Row `i` of the copy table. -/
def memcpyRow (i : Nat) : Align4 := memcpyAligns.getD i ⟨0, 0, 0, 0⟩

/-- The memory state immediately after the primitive's call in the trip of row `i` and
length `n`, when the driver is entered with memory `m`. -/
def memcpyStateAfterCall (test_memcpy : MemcpyFn) (m : Mem) (dst src i n : Nat) : Mem :=
  memcpyCall test_memcpy dst src (memcpyRow i) n
    (memcpyAfterLens test_memcpy dst src (memcpyRow i) n
      (memcpyAfterRows test_memcpy dst src (memcpyAligns.take i) (memcpyInitSrc m src)))

/-- What a trip of the copy driver verifies on the memory `m` left by the primitive: the
`n` copied bytes equal the source bytes and are non-zero, the fencepost after the array is
intact, and so is the one before it whenever `dst_align` is not the allocation pointer. -/
def CopyVerified (m : Mem) (dst dst_align src_align n : Nat) : Prop :=
  (∀ j, j < n → m (dst_align + j) = m (src_align + j) ∧ m (dst_align + j) ≠ 0)
  ∧ FenceIntact m (dst_align + n)
  ∧ (dst_align ≠ dst → FenceIntact m (dst_align - 8))

/-- `CopyVerified` for the trip of row `i` and length `n` of a run of the driver. -/
def CopyTripVerified (test_memcpy : MemcpyFn) (m : Mem) (dst src i n : Nat) : Prop :=
  CopyVerified (memcpyStateAfterCall test_memcpy m dst src i n) dst
    (memcpyDstAlign dst (memcpyRow i)) (memcpySrcAlign src (memcpyRow i)) n

/-- The verification of the trip of length `t` of row `e` passes, the inner loop having
been entered with memory `m`. -/
def memcpyTripOk (test_memcpy : MemcpyFn) (dst src : Nat) (e : Align4) (m : Mem)
    (t : Nat) : Bool :=
  memcpyVerify
    (memcpyCall test_memcpy dst src e t (memcpyAfterLens test_memcpy dst src e t m))
    dst (memcpyDstAlign dst e) (memcpySrcAlign src e) t

/-- The verification of the trip of length `t` of the `k`-th row of `es` passes, the outer
loop having been entered with memory `m`. -/
def memcpyRowTripOk (test_memcpy : MemcpyFn) (dst src : Nat) (es : List Align4) (m : Mem)
    (k t : Nat) : Bool :=
  memcpyTripOk test_memcpy dst src (es.getD k ⟨0, 0, 0, 0⟩)
    (memcpyAfterRows test_memcpy dst src (es.take k) m) t

/-! ### Primitives used as instances -/

/-- A primitive that writes one byte too many: it zeroes `dst[n]`. -/
def overrunCopy : MemcpyFn := fun m d _ n => store m (d + n) 0

/-- The byte-exact reference copy: `dst[j] = src[j]` for `j < n`, every other byte
unchanged. -/
def referenceCopy : MemcpyFn := fun m d s n x =>
  if d ≤ x ∧ x < d + n then m (s + (x - d)) else m x

/-- The source pattern of lines 365-368 at index `i`. -/
def srcPattern (i : Nat) : Nat := if i % 256 = 0 then 0xaa else i % 256

/-- The source block holds the source pattern. -/
def SrcKept (m : Mem) (src : Nat) : Prop :=
  ∀ x, src ≤ x → x < src + MAX_MEMCPY_BUFFER_SIZE → m x = srcPattern (x - src)

/-- Placement of the aligned pointers of row `e`: whatever the harness and a copy of at
most `MAX_MEMCPY_TEST_SIZE` bytes write for this row lies off the source block, and the
bytes read lie inside it. -/
def RowPlaced (dst src : Nat) (e : Align4) : Prop :=
  (memcpyDstAlign dst e ≠ dst → 8 ≤ memcpyDstAlign dst e)
  ∧ (memcpyDstAlign dst e + (MAX_MEMCPY_TEST_SIZE + 8) ≤ src
      ∨ (src + MAX_MEMCPY_BUFFER_SIZE ≤ memcpyDstAlign dst e
          ∧ (memcpyDstAlign dst e ≠ dst →
              src + MAX_MEMCPY_BUFFER_SIZE + 8 ≤ memcpyDstAlign dst e)))
  ∧ src ≤ memcpySrcAlign src e
  ∧ memcpySrcAlign src e + MAX_MEMCPY_TEST_SIZE ≤ src + MAX_MEMCPY_BUFFER_SIZE

/-! ## Fill driver: runMemsetTest (lines 492-581) -/

/-- A row of an `int [][2]` alignment table. -/
structure Align2 where
  a0 : Int
  a1 : Int
deriving DecidableEq, Repr

/-- A fill primitive `test_memset(s, c, n)`, `c` an `int`: the memory it leaves. The
pointer it returns is discarded by the driver (line 553). -/
abbrev MemsetFn := Mem → Nat → Int → Nat → Mem

/-- The table `aligns` of lines 501-522. -/
def memsetAligns : List Align2 :=
  [ ⟨0, 0⟩,
    ⟨1, 0⟩, ⟨2, 0⟩, ⟨4, 0⟩, ⟨8, 0⟩, ⟨16, 0⟩, ⟨32, 0⟩, ⟨64, 0⟩,
    ⟨8, 1⟩, ⟨8, 2⟩, ⟨8, 3⟩, ⟨8, 4⟩, ⟨8, 5⟩, ⟨8, 6⟩, ⟨8, 7⟩ ]

/-- The condition `aligns[i]` of line 528. Its operand is the row itself, an `int[2]`,
which converts to the address of its first element; the address of an object is not
null, so the condition holds for every row, whatever the row contains. -/
def memsetRowCondition (_e : Align2) : Bool := true

/-- Lines 528-533, `buf_align`. -/
def memsetBufAlign (buf : Nat) (e : Align2) : Nat :=
  if memsetRowCondition e then getAlignedPtr (buf + FENCEPOST_LENGTH) e.a0 e.a1 else buf

/-- Line 552, `int value = (len % 255) + 1`. -/
def memsetValue (len : Nat) : Int := ((len % 255 + 1 : Nat) : Int)

/-- Lines 542-550 of one trip: the buffer is zeroed byte by byte and the fenceposts are
set, the one before the buffer at `&buf_align[-8]` only when `buf_align != buf`. -/
def memsetPrepare (buf buf_align len : Nat) (m : Mem) : Mem :=
  let m := (List.range len).foldl (fun m j => store m (buf_align + j) 0) m
  let m := if buf_align ≠ buf then setFencepost m (buf_align - 8) else m
  setFencepost m (buf_align + len)

/-- Lines 528-553 of one trip: the memory immediately after the primitive's call. -/
def memsetCall (test_memset : MemsetFn) (buf : Nat) (e : Align2) (len : Nat) (m : Mem) : Mem :=
  let buf_align := memsetBufAlign buf e
  test_memset (memsetPrepare buf buf_align len m) buf_align (memsetValue len) len

/-- Lines 555-574: the three verifications of one trip; `false` when one of the three
`return false` is taken. The byte `buf_align[j]` is compared with the `int` `value`. -/
def memsetVerify (m : Mem) (buf buf_align len : Nat) (value : Int) : Bool :=
  if !(List.range len).all (fun j => !(decide (((m (buf_align + j) : Nat) : Int) ≠ value)))
    then false
  else if buf_align ≠ buf ∧ verifyFencepost m (buf_align - 8) = false then false
  else if verifyFencepost m (buf_align + len) = false then false
  else true

/-- The inner loop of line 527 for table row `i` (holding `e`), over the remaining values
of `len`. -/
def memsetLenLoop (test_memset : MemsetFn) (buf i : Nat) (e : Align2) :
    List Nat → Mem → Sweep
  | [], m => .done m
  | len :: rest, m =>
    let m := memsetCall test_memset buf e len m
    if memsetVerify m buf (memsetBufAlign buf e) len (memsetValue len) then
      memsetLenLoop test_memset buf i e rest m
    else
      .failed i len

/-- The outer loop of line 526 over the remaining rows, the first of them being row `i`;
`len` takes the values `0, ..., MAX_MEMSET_TEST_SIZE`. -/
def memsetRowLoop (test_memset : MemsetFn) (buf : Nat) : Nat → List Align2 → Mem → Sweep
  | _, [], m => .done m
  | i, e :: rest, m =>
    match memsetLenLoop test_memset buf i e (List.range (MAX_MEMSET_TEST_SIZE + 1)) m with
    | .done m => memsetRowLoop test_memset buf (i + 1) rest m
    | .failed row len => .failed row len

/-- Lines 526-576: the sweep of the table. -/
def memsetSweep (test_memset : MemsetFn) (m : Mem) (buf : Nat) : Sweep :=
  memsetRowLoop test_memset buf 0 memsetAligns m

/-- Source `runMemsetTest`. `buf` is the address returned by `malloc` (0 for `NULL`), `m`
the memory at entry. -/
def runMemsetTest (test_memset : MemsetFn) (m : Mem) (buf : Nat) : Bool :=
  if buf = 0 then false
  else (memsetSweep test_memset m buf).passed

/-- The reference fill: `n` bytes from `s` receive `c` truncated to 8 bits. -/
def referenceFill : MemsetFn := fun m s c n x =>
  if s ≤ x ∧ x < s + n then (c % 256).toNat else m x

/-- A fill primitive that writes before its buffer: after the fill it zeroes the byte
`s[-8]`. -/
def underrunFill : MemsetFn := fun m s c n =>
  store (referenceFill m s c n) (s - 8) 0

/-! ## Over-read sub-test: doStrcmpCheckRead (lines 181-253) -/

/-- A comparator `test_strcmp(s1, s2)`: its result on a memory state. -/
abbrev StrcmpFn := Mem → Nat → Nat → Int

/-- Line 198, `size_t max_size = pagesize < MAX_STRCMP_TEST_SIZE ? pagesize-1 :
MAX_STRCMP_TEST_SIZE`: `pagesize` is a `long`, the result is converted to `size_t`
(64 bits). -/
def checkReadMaxSize (pagesize : Int) : Nat :=
  if pagesize < (MAX_STRCMP_TEST_SIZE : Int) then toU64 (pagesize - 1)
  else MAX_STRCMP_TEST_SIZE

/-- The values taken by `i` in the loop of line 207,
`for (size_t i = 0; i <= max_size; i++)`: the string lengths the sub-test goes through
when no comparison makes it return. -/
def checkReadLengths (pagesize : Int) : List Nat :=
  List.range (checkReadMaxSize pagesize + 1)

/-- Line 208, the index `pagesize-i-1` of `&memory[pagesize-i-1]`: `i` is a `size_t`, so
the `long` operand is converted and the subtraction wraps modulo `2 ^ 64`. -/
def checkReadIndex (pagesize : Int) (i : Nat) : Nat :=
  toU64 (pagesize - (i : Int) - 1)

/-- Line 208, `string = &memory[pagesize-i-1]`, as an address. -/
def checkReadString (pagesize : Int) (memory i : Nat) : Nat :=
  (memory + checkReadIndex pagesize i) % 2 ^ 64

/-- Lines 209-214: both strings receive `i` pattern characters and a terminator. -/
def checkReadFill (pagesize : Int) (memory other_string i : Nat) (m : Mem) : Mem :=
  let string := checkReadString pagesize memory i
  let m := (List.range i).foldl
    (fun m j =>
      let m := store m (other_string + j) (patternChar j)
      store m (string + j) (m (other_string + j))) m
  let m := store m (other_string + i) 0
  store m (string + i) 0

/-- Lines 233-234: `other_string` is made one character longer. -/
def checkReadExtend (other_string i : Nat) (m : Mem) : Mem :=
  store (store m (other_string + i) 0x31) (other_string + (i + 1)) 0

/-- Offsets into `other_string` of the stores of the trip for length `i`
(lines 210, 213, 233, 234). -/
def checkReadOtherOffsets (i : Nat) : List Nat :=
  List.range i ++ [i, i, i + 1]

/-- Lines 208-250, one trip of the loop: the memory it leaves and whether its four
comparisons gave the expected results. -/
def checkReadBody (test_strcmp : StrcmpFn) (pagesize : Int) (memory other_string i : Nat)
    (m : Mem) : Mem × Bool :=
  let string := checkReadString pagesize memory i
  let m := checkReadFill pagesize memory other_string i m
  if test_strcmp m other_string string ≠ 0 then (m, false)
  else if test_strcmp m string other_string ≠ 0 then (m, false)
  else
    let m := checkReadExtend other_string i m
    if test_strcmp m other_string string = 0 then (m, false)
    else if test_strcmp m string other_string = 0 then (m, false)
    else (m, true)

/-- The loop of line 207 over the remaining lengths. -/
def checkReadLoop (test_strcmp : StrcmpFn) (pagesize : Int) (memory other_string : Nat) :
    List Nat → Mem → Bool
  | [], _ => true
  | i :: rest, m =>
    let r := checkReadBody test_strcmp pagesize memory other_string i m
    if r.2 then checkReadLoop test_strcmp pagesize memory other_string rest r.1 else false

/-- Source `doStrcmpCheckRead`. `pagesize` is the result of `sysconf`, `memory` and
`other_string` the addresses returned by `memalign` and `malloc` (0 for `NULL`), and
`mprotect_result` the result of `mprotect`. -/
def doStrcmpCheckRead (test_strcmp : StrcmpFn) (pagesize : Int) (memory : Nat)
    (mprotect_result : Int) (other_string : Nat) (m : Mem) : Bool :=
  if memory = 0 then false
  else if mprotect_result ≠ 0 then false
  else if other_string = 0 then false
  else checkReadLoop test_strcmp pagesize memory other_string (checkReadLengths pagesize) m

/-! ## Shapes of the alignment tables -/

/-- The non-zero alignments that occur in the tables of the three drivers. -/
def tableAlignments : List Int := [1, 2, 4, 8, 16, 32, 64, 128]

/-- A table alignment with a mask in `0..16`, as every aligned row of the tables has. -/
def TableAligned (a mask : Int) : Prop :=
  a ∈ tableAlignments ∧ 0 ≤ mask ∧ mask ≤ 16

/-! ## Compare driver: doStrcmpExpectEqual (lines 76-110) -/

/-- Lines 84-85, one trip of the fill loop: `align_str1[j] = (char)(32 + (j % 96))`, then
`align_str2[j] = align_str1[j]`. -/
def expectEqualStep (align_str1 align_str2 : Nat) (m : Mem) (j : Nat) : Mem :=
  let m := store m (align_str1 + j) (patternChar j)
  store m (align_str2 + j) (m (align_str1 + j))

/-- Lines 93-94, one trip of the poison loop: `align_str1[j] = (char)(32 + j)` and
`align_str2[j] = (char)(40 + j)`. -/
def expectEqualPoison (align_str1 align_str2 : Nat) (m : Mem) (j : Nat) : Mem :=
  store (store m (align_str1 + j) (32 + j)) (align_str2 + j) (40 + j)

/-- Lines 83-95 for the length `i`: the memory on which the comparator is then called.
The poison loop `for (j = i+1; j < i+64; j++)` makes 63 trips. -/
def expectEqualFill (align_str1 align_str2 i : Nat) (m : Mem) : Mem :=
  let m := (List.range i).foldl (expectEqualStep align_str1 align_str2) m
  let m := store m (align_str1 + i) 0
  let m := store m (align_str2 + i) 0
  (List.range' (i + 1) 63).foldl (expectEqualPoison align_str1 align_str2) m

/-- The loop of line 82 over the remaining lengths: the memory left and whether every
comparison returned 0. -/
def expectEqualLoop (test_strcmp : StrcmpFn) (align_str1 align_str2 : Nat) :
    List Nat → Mem → Mem × Bool
  | [], m => (m, true)
  | i :: rest, m =>
    let m := expectEqualFill align_str1 align_str2 i m
    if test_strcmp m align_str1 align_str2 ≠ 0 then (m, false)
    else expectEqualLoop test_strcmp align_str1 align_str2 rest m

/-- Source `doStrcmpExpectEqual`: the lengths are `0, ..., MAX_STRCMP_TEST_SIZE - 1`. -/
def doStrcmpExpectEqual (test_strcmp : StrcmpFn) (string1 string2 : Nat) (align : Align4)
    (m : Mem) : Mem × Bool :=
  let align_str1 := getAlignedPtr string1 align.a0 align.a1
  let align_str2 := getAlignedPtr string2 align.a2 align.a3
  expectEqualLoop test_strcmp align_str1 align_str2 (List.range MAX_STRCMP_TEST_SIZE) m

/-! ## Compare driver: doStrcmpExpectDiff (lines 112-179) -/

/-- Conversion of an `int` to `char`, as a byte value. -/
def toChar (x : Int) : Nat := (x % 256).toNat

/-- Lines 121-127, one trip of the fill loop: the pattern character, replaced by
`diff_char-1` when it equals `diff_char`, goes to both strings. The character `diff_char`
is given as a byte value. -/
def expectDiffStep (align_str1 align_str2 diff_char : Nat) (m : Mem) (i : Nat) : Mem :=
  let m := store m (align_str1 + i) (patternChar i)
  let m := if m (align_str1 + i) = diff_char then
      store m (align_str1 + i) (toChar ((diff_char : Int) - 1))
    else m
  store m (align_str2 + i) (m (align_str1 + i))

/-- Lines 119-128: the memory after the fill loop. -/
def expectDiffFill (align_str1 align_str2 diff_char : Nat) (m : Mem) : Mem :=
  (List.range MAX_STRCMP_TEST_SIZE).foldl (expectDiffStep align_str1 align_str2 diff_char) m

/-- Lines 119-130: the fill loop and the two terminators. -/
def expectDiffSetup (align_str1 align_str2 diff_char : Nat) (m : Mem) : Mem :=
  let m := expectDiffFill align_str1 align_str2 diff_char m
  let m := store m (align_str1 + MAX_STRCMP_TEST_SIZE) 0
  store m (align_str2 + MAX_STRCMP_TEST_SIZE) 0

/-- Lines 141-142 and 164-165: the pointer `bad` into the string `align_str`. -/
def expectDiffBad (align_str : Nat) (diff_align : Align2) : Nat :=
  getAlignedPtr (align_str + MAX_STRCMP_TEST_SIZE / 2) diff_align.a0 diff_align.a1

/-- Lines 144-145: the difference is injected into the first string. -/
def expectDiffInject1 (align_str1 : Nat) (diff_align : Align2) (diff_char : Nat) (m : Mem) :
    Mem :=
  store m (expectDiffBad align_str1 diff_align) diff_char

/-- Line 156: the first string gets back `saved_char`, the byte read at line 144. -/
def expectDiffRestore (align_str1 : Nat) (diff_align : Align2) (saved_char : Nat) (m : Mem) :
    Mem :=
  store m (expectDiffBad align_str1 diff_align) saved_char

/-- Lines 164-166: the difference is injected into the second string. -/
def expectDiffInject2 (align_str2 : Nat) (diff_align : Align2) (diff_char : Nat) (m : Mem) :
    Mem :=
  store m (expectDiffBad align_str2 diff_align) diff_char

/-- Source `doStrcmpExpectDiff`: the memory left and the result. -/
def doStrcmpExpectDiff (test_strcmp : StrcmpFn) (string1 string2 : Nat)
    (diff_align : Align2) (align : Align4) (diff_char : Nat) (m : Mem) : Mem × Bool :=
  let align_str1 := getAlignedPtr string1 align.a0 align.a1
  let align_str2 := getAlignedPtr string2 align.a2 align.a3
  let m := expectDiffSetup align_str1 align_str2 diff_char m
  if test_strcmp m align_str1 align_str2 ≠ 0 then (m, false)
  else
    let saved_char := m (expectDiffBad align_str1 diff_align)
    let m := expectDiffInject1 align_str1 diff_align diff_char m
    if test_strcmp m align_str1 align_str2 = 0 then (m, false)
    else
      let m := expectDiffRestore align_str1 diff_align saved_char m
      if test_strcmp m align_str1 align_str2 ≠ 0 then (m, false)
      else
        let m := expectDiffInject2 align_str2 diff_align diff_char m
        if test_strcmp m align_str1 align_str2 = 0 then (m, false)
        else (m, true)

/-! ## Compare driver: runStrcmpTest (lines 255-348) -/

/-- The table `string_aligns` of lines 275-300. -/
def stringAligns : List Align4 :=
  [ ⟨0, 0, 0, 0⟩,
    ⟨1, 0, 1, 0⟩, ⟨2, 0, 2, 0⟩, ⟨4, 0, 4, 0⟩, ⟨8, 0, 8, 0⟩,
    ⟨8, 0, 4, 0⟩, ⟨4, 0, 8, 0⟩,
    ⟨8, 0, 8, 1⟩, ⟨8, 0, 8, 2⟩, ⟨8, 0, 8, 3⟩,
    ⟨8, 1, 8, 0⟩, ⟨8, 2, 8, 0⟩, ⟨8, 3, 8, 0⟩,
    ⟨4, 0, 4, 1⟩, ⟨4, 0, 4, 2⟩, ⟨4, 0, 4, 3⟩,
    ⟨4, 1, 4, 0⟩, ⟨4, 2, 4, 0⟩, ⟨4, 3, 4, 0⟩ ]

/-- The table `diff_aligns` of lines 311-320. -/
def diffAligns : List Align2 :=
  [ ⟨4, 0⟩, ⟨4, 1⟩, ⟨4, 2⟩, ⟨4, 3⟩, ⟨8, 0⟩, ⟨8, 1⟩, ⟨8, 2⟩, ⟨8, 3⟩ ]

/-- Lines 266-271: both strings are initialised with the pattern and terminated. -/
def strcmpInit (string1 string2 : Nat) (m : Mem) : Mem :=
  let m := (List.range MAX_STRCMP_BUFFER_SIZE).foldl (expectEqualStep string1 string2) m
  let m := store m (string1 + MAX_STRCMP_BUFFER_SIZE) 0
  store m (string2 + MAX_STRCMP_BUFFER_SIZE) 0

/-- The loop of lines 303-308 over the remaining rows of `string_aligns`. -/
def equalSweep (test_strcmp : StrcmpFn) (string1 string2 : Nat) :
    List Align4 → Mem → Mem × Bool
  | [], m => (m, true)
  | a :: rest, m =>
    let r := doStrcmpExpectEqual test_strcmp string1 string2 a m
    if r.2 then equalSweep test_strcmp string1 string2 rest r.1 else (r.1, false)

/-- The arguments `diff_align`, `align` and `diff_char` of a call of
`doStrcmpExpectDiff`; the character is a byte value. -/
structure DiffCall where
  diff_align : Align2
  align : Align4
  diff_char : Nat
deriving DecidableEq, Repr

/-- The calls of `doStrcmpExpectDiff` that the loops of lines 322-338 make, in order, when
no call returns false: for each row of `diff_aligns`, the first inner loop goes through
`string_aligns` with the character of line 326, `'\0'`, and the second inner loop goes
through `string_aligns` with the character of line 334, `'\0'`. -/
def diffSweepCalls : List DiffCall :=
  (diffAligns.map (fun d =>
    stringAligns.map (fun a => (⟨d, a, 0⟩ : DiffCall))
      ++ stringAligns.map (fun a => (⟨d, a, 0⟩ : DiffCall)))).flatten

/-- The loops of lines 322-338 over the remaining calls. -/
def diffSweep (test_strcmp : StrcmpFn) (string1 string2 : Nat) :
    List DiffCall → Mem → Mem × Bool
  | [], m => (m, true)
  | c :: rest, m =>
    let r := doStrcmpExpectDiff test_strcmp string1 string2 c.diff_align c.align c.diff_char m
    if r.2 then diffSweep test_strcmp string1 string2 rest r.1 else (r.1, false)

/-- Source `runStrcmpTest`. `string1` and `string2` are the addresses returned by the two
`malloc` calls (0 for `NULL`); the other parameters are those of `doStrcmpCheckRead`. -/
def runStrcmpTest (test_strcmp : StrcmpFn) (string1 string2 : Nat) (pagesize : Int)
    (memory : Nat) (mprotect_result : Int) (other_string : Nat) (m : Mem) : Bool :=
  if string1 = 0 ∨ string2 = 0 then false
  else
    let m := strcmpInit string1 string2 m
    let r := equalSweep test_strcmp string1 string2 stringAligns m
    if !r.2 then false
    else
      let r := diffSweep test_strcmp string1 string2 diffSweepCalls r.1
      if !r.2 then false
      else doStrcmpCheckRead test_strcmp pagesize memory mprotect_result other_string r.1

/-- The memory after the trips of `doStrcmpExpectEqual` for the lengths `0, ..., n - 1`,
entered with memory `m`. The comparator does not write memory, so after a trip the memory
is the one the comparator was called on. -/
def expectEqualAfter (align_str1 align_str2 : Nat) : Nat → Mem → Mem
  | 0, m => m
  | n + 1, m => expectEqualFill align_str1 align_str2 n (expectEqualAfter align_str1 align_str2 n m)

/-- The memory on which `doStrcmpExpectEqual`, entered with memory `m`, calls the
comparator for the length `i`. -/
def expectEqualCallState (align_str1 align_str2 : Nat) (m : Mem) (i : Nat) : Mem :=
  expectEqualAfter align_str1 align_str2 (i + 1) m

/-- What holds of the two strings built for the length `i` when the comparator is called:
they agree at the indices `0..i`, have no zero byte below `i` and the terminator at `i`, and
at every poison index `j`, `i < j < i + 64`, they hold `(char)(32 + j)` and
`(char)(40 + j)`, which differ. -/
def EqualStrings (m : Mem) (align_str1 align_str2 i : Nat) : Prop :=
  (∀ j, j ≤ i → m (align_str1 + j) = m (align_str2 + j))
  ∧ (∀ j, j < i → m (align_str1 + j) ≠ 0 ∧ m (align_str2 + j) ≠ 0)
  ∧ m (align_str1 + i) = 0 ∧ m (align_str2 + i) = 0
  ∧ (∀ j, i < j → j < i + 64 →
      m (align_str1 + j) = (32 + j) % 256 ∧ m (align_str2 + j) = (40 + j) % 256
      ∧ m (align_str1 + j) ≠ m (align_str2 + j))

/-- The byte both strings hold at index `i` after the fill loop of `doStrcmpExpectDiff`. -/
def diffPattern (diff_char i : Nat) : Nat :=
  if patternChar i = diff_char then toChar ((diff_char : Int) - 1) else patternChar i

/-- The effect of injecting `diff_char` at index `p` of the string `s`, `t` being the other
string: `p` lies in `[513, 531]`, before the terminator at index 1024; exactly the byte
`s[p]` changes, from a non-zero byte other than `diff_char` to `diff_char`; afterwards the
strings differ at index `p` and agree at every index below `p`. -/
def DiffInjected (before after : Mem) (s t p diff_char : Nat) : Prop :=
  513 ≤ p ∧ p ≤ 531 ∧ p < MAX_STRCMP_TEST_SIZE
  ∧ before (s + p) ≠ diff_char ∧ before (s + p) ≠ 0
  ∧ after (s + p) = diff_char
  ∧ (∀ x, x ≠ s + p → after x = before x)
  ∧ after (s + p) ≠ after (t + p)
  ∧ (∀ i, i < p → after (s + i) = after (t + i))

/-- The memory of the first comparator call of `doStrcmpExpectDiff` (line 135), entered
with memory `m`: both strings filled and terminated. -/
def expectDiffCall1 (align_str1 align_str2 diff_char : Nat) (m : Mem) : Mem :=
  expectDiffSetup align_str1 align_str2 diff_char m

/-- The memory of the second comparator call (line 151): the difference injected into the
first string. -/
def expectDiffCall2 (align_str1 align_str2 : Nat) (diff_align : Align2) (diff_char : Nat)
    (m : Mem) : Mem :=
  expectDiffInject1 align_str1 diff_align diff_char
    (expectDiffCall1 align_str1 align_str2 diff_char m)

/-- The memory of the third comparator call (line 159): the first string gets back the
byte that line 144 read from the memory of the first call. -/
def expectDiffCall3 (align_str1 align_str2 : Nat) (diff_align : Align2) (diff_char : Nat)
    (m : Mem) : Mem :=
  expectDiffRestore align_str1 diff_align
    (expectDiffCall1 align_str1 align_str2 diff_char m (expectDiffBad align_str1 diff_align))
    (expectDiffCall2 align_str1 align_str2 diff_align diff_char m)

/-- The memory of the fourth comparator call (line 172): the difference injected into the
second string. -/
def expectDiffCall4 (align_str1 align_str2 : Nat) (diff_align : Align2) (diff_char : Nat)
    (m : Mem) : Mem :=
  expectDiffInject2 align_str2 diff_align diff_char
    (expectDiffCall3 align_str1 align_str2 diff_align diff_char m)

/-- What `doStrcmpExpectDiff` builds for the aligned strings `align_str1`, `align_str2`,
entered with memory `m`: after the fill loop no byte at the indices `0..1023` of either
string is `diff_char`; the memory of the first call holds these bytes at the indices
`0..1023`, none of them zero, and the terminators at index 1024, so the two strings are
equal; the injection into the first string, between the first and the second call, is as
`DiffInjected` says; the memory of the third call is that of the first call; and the
injection into the second string, between the third and the fourth call, is as
`DiffInjected` says. -/
def DiffTestBuilt (align_str1 align_str2 : Nat) (diff_align : Align2) (diff_char : Nat)
    (m : Mem) : Prop :=
  (∀ i, i < MAX_STRCMP_TEST_SIZE →
      expectDiffFill align_str1 align_str2 diff_char m (align_str1 + i) ≠ diff_char
      ∧ expectDiffFill align_str1 align_str2 diff_char m (align_str2 + i) ≠ diff_char)
  ∧ (∀ i, i < MAX_STRCMP_TEST_SIZE →
      expectDiffCall1 align_str1 align_str2 diff_char m (align_str1 + i)
        = expectDiffFill align_str1 align_str2 diff_char m (align_str1 + i)
      ∧ expectDiffCall1 align_str1 align_str2 diff_char m (align_str2 + i)
        = expectDiffFill align_str1 align_str2 diff_char m (align_str2 + i)
      ∧ expectDiffCall1 align_str1 align_str2 diff_char m (align_str1 + i) ≠ 0)
  ∧ expectDiffCall1 align_str1 align_str2 diff_char m (align_str1 + MAX_STRCMP_TEST_SIZE) = 0
  ∧ expectDiffCall1 align_str1 align_str2 diff_char m (align_str2 + MAX_STRCMP_TEST_SIZE) = 0
  ∧ (∀ i, i ≤ MAX_STRCMP_TEST_SIZE →
      expectDiffCall1 align_str1 align_str2 diff_char m (align_str1 + i)
        = expectDiffCall1 align_str1 align_str2 diff_char m (align_str2 + i))
  ∧ (∃ p, expectDiffBad align_str1 diff_align = align_str1 + p
      ∧ DiffInjected (expectDiffCall1 align_str1 align_str2 diff_char m)
          (expectDiffCall2 align_str1 align_str2 diff_align diff_char m)
          align_str1 align_str2 p diff_char)
  ∧ expectDiffCall3 align_str1 align_str2 diff_align diff_char m
      = expectDiffCall1 align_str1 align_str2 diff_char m
  ∧ (∃ p, expectDiffBad align_str2 diff_align = align_str2 + p
      ∧ DiffInjected (expectDiffCall3 align_str1 align_str2 diff_align diff_char m)
          (expectDiffCall4 align_str1 align_str2 diff_align diff_char m)
          align_str2 align_str1 p diff_char)

/-! ## main (lines 583-600) -/

/-- The three drivers that `main` calls. -/
inductive Driver where
  | strcmp
  | memcpy
  | memset
deriving DecidableEq, Repr

/-- An expression of `main`, evaluated after the driver calls `calls`: its value and the
driver calls made once it is evaluated, in order. -/
abbrev MainExpr := List Driver → Bool × List Driver

/-- A call `runXTest(f, verbose)`: the call is made and gives the driver's result. -/
def callDriver (result : Driver → Bool → Bool) (d : Driver) (verbose : Bool) : MainExpr :=
  fun calls => (result d verbose, calls ++ [d])

/-- A read of the variable `tests_passing`. -/
def readVar (tests_passing : Bool) : MainExpr :=
  fun calls => (tests_passing, calls)

/-- The C expression `lhs && rhs`: `lhs` is evaluated first, and `rhs` only when `lhs` is
true. -/
def andAlso (lhs rhs : MainExpr) : MainExpr :=
  fun calls =>
    let l := lhs calls
    if l.1 then rhs l.2 else (false, l.2)

/-- Source `main`: `argv` is the argument vector (`argc` its length) and `result d v` is
what the driver `d` returns when called with `verbose = v`. The result is the exit status
and the driver calls made. -/
def main (argv : List String) (result : Driver → Bool → Bool) : Int × List Driver :=
  let verbose := argv.length == 2 && argv.getD 1 "" == "-v"
  let tests_passing := true
  let r := andAlso (callDriver result .strcmp verbose) (readVar tests_passing) []
  let tests_passing := r.1
  let r := andAlso (callDriver result .memcpy verbose) (readVar tests_passing) r.2
  let tests_passing := r.1
  let r := andAlso (callDriver result .memset verbose) (readVar tests_passing) r.2
  let tests_passing := r.1
  (if tests_passing then 0 else 1, r.2)

/-- The value of `verbose` in `main`. -/
def mainVerbose (argv : List String) : Bool :=
  argv.length == 2 && argv.getD 1 "" == "-v"

/-! ## Helper lemmas on bit operations -/

theorem toU64_natCast (n : Nat) : toU64 (n : Int) = n % 2 ^ 64 := by
  unfold toU64
  have h : ((n : Int) % 2 ^ 64) = ((n % 2 ^ 64 : Nat) : Int) := by
    push_cast
    rfl
  rw [h, Int.toNat_ofNat]

theorem toU64_of_lt {n : Nat} (h : n < 2 ^ 64) : toU64 (n : Int) = n := by
  rw [toU64_natCast, Nat.mod_eq_of_lt h]

theorem or_mod_two_pow (a b k : Nat) : (a ||| b) % 2 ^ k = a % 2 ^ k ||| b % 2 ^ k := by
  apply Nat.eq_of_testBit_eq
  intro i
  simp only [Nat.testBit_mod_two_pow, Nat.testBit_or, Bool.and_or_distrib_left]

/-- A multiple of `2 ^ k` adds nothing below bit `k + 1` once bit `k` is set. -/
theorem or_mul_pow_two_mod (k q m : Nat) :
    ((2 ^ k * q) ||| (2 ^ k ||| m)) % 2 ^ (k + 1) = (2 ^ k ||| m) % 2 ^ (k + 1) := by
  apply Nat.eq_of_testBit_eq
  intro i
  rw [Nat.testBit_mod_two_pow, Nat.testBit_mod_two_pow, Nat.testBit_or, Nat.testBit_or,
    Nat.testBit_mul_pow_two, Nat.testBit_two_pow]
  by_cases h1 : i < k + 1
  · by_cases h2 : k = i
    · simp [h2]
    · have h3 : ¬ i ≥ k := by omega
      simp [h3]
  · simp [h1]

theorem two_pow_le_30 {k : Nat} (hk : k ≤ 30) : 2 ^ k ≤ 2 ^ 30 :=
  Nat.pow_le_pow_right (by decide) hk

/-- Shape of the result for a power-of-two alignment and a non-negative mask: a
multiple of the alignment, or-ed with the alignment and the mask. -/
theorem getAlignedPtr_pow_two (base k m : Nat) (hk : k ≤ 30) :
    ∃ q : Nat, getAlignedPtr base ((2 ^ k : Nat) : Int) (m : Int)
      = (2 ^ k * q) ||| ((2 ^ k ||| m) % 2 ^ 64) := by
  have hpos : 0 < 2 ^ k := Nat.two_pow_pos k
  have hle : 2 ^ k ≤ 2 ^ 30 := two_pow_le_30 hk
  have hlt : 2 ^ k < 2 ^ 64 := lt_of_le_of_lt hle (by decide)
  have hmod : base % 2 ^ k < 2 ^ k := Nat.mod_lt _ hpos
  have h1 : (((2 ^ k : Nat) : Int) - 1) = ((2 ^ k - 1 : Nat) : Int) := by
    rw [Nat.cast_sub hpos]; rfl
  have hlow : base &&& toU64 (((2 ^ k : Nat) : Int) - 1) = base % 2 ^ k := by
    rw [h1, toU64_of_lt (lt_of_le_of_lt (Nat.sub_le _ _) hlt),
      Nat.and_pow_two_sub_one_eq_mod]
  have hdelta : toU64 ((toU64 ((2 ^ k : Nat) : Int) : Int) - ((base % 2 ^ k : Nat) : Int))
      = 2 ^ k - base % 2 ^ k := by
    rw [toU64_of_lt hlt, ← Nat.cast_sub (le_of_lt hmod)]
    exact toU64_of_lt (lt_of_le_of_lt (Nat.sub_le _ _) hlt)
  have hdvd : 2 ^ k ∣ (base + (2 ^ k - base % 2 ^ k)) % 2 ^ 64 := by
    have hd64 : 2 ^ k ∣ 2 ^ 64 := Nat.pow_dvd_pow 2 (by omega)
    have hd : 2 ^ k ∣ base + (2 ^ k - base % 2 ^ k) := by
      have : base + (2 ^ k - base % 2 ^ k) = 2 ^ k * (base / 2 ^ k + 1) := by
        have := Nat.div_add_mod base (2 ^ k)
        rw [Nat.mul_add]
        omega
      rw [this]
      exact Nat.dvd_mul_right _ _
    exact (Nat.dvd_mod_iff hd64).mpr hd
  obtain ⟨q, hq⟩ := hdvd
  refine ⟨q, ?_⟩
  have hgt : ((2 ^ k : Nat) : Int) > 0 := by exact_mod_cast hpos
  have hlor : Int.lor ((2 ^ k : Nat) : Int) (m : Int) = ((2 ^ k ||| m : Nat) : Int) := rfl
  unfold getAlignedPtr
  simp only [if_pos hgt]
  rw [hlow, hdelta, hq, hlor, toU64_natCast]

/-! ## Helper lemmas on fenceposts -/

theorem fencepostIndices_eq : fencepostIndices = [0, 2, 4, 6] := by decide

theorem setFencepost_apply (m : Mem) (b x : Nat) :
    setFencepost m b x = if b ≤ x ∧ x < b + 8 then fenceByte (x - b) else m x := by
  unfold setFencepost
  rw [fencepostIndices_eq]
  simp only [List.foldl, store]
  by_cases h : b ≤ x ∧ x < b + 8
  · obtain ⟨k, rfl⟩ : ∃ k, x = b + k := ⟨x - b, by omega⟩
    have hk : k < 8 := by omega
    rw [if_pos h]
    interval_cases k <;> simp [fenceByte]
  · rw [if_neg h]
    have h0 : x ≠ b + 0 := by omega
    have h1 : x ≠ b + (0 + 1) := by omega
    have h2 : x ≠ b + 2 := by omega
    have h3 : x ≠ b + (2 + 1) := by omega
    have h4 : x ≠ b + 4 := by omega
    have h5 : x ≠ b + (4 + 1) := by omega
    have h6 : x ≠ b + 6 := by omega
    have h7 : x ≠ b + (6 + 1) := by omega
    simp only [if_neg h0, if_neg h1, if_neg h2, if_neg h3, if_neg h4, if_neg h5, if_neg h6,
      if_neg h7]

theorem verifyFencepostLoop_eq_none (m : Mem) (b : Nat) (l : List Nat) :
    verifyFencepostLoop m b l = none ↔
      ∀ i ∈ l, m (b + i) = 0xde ∧ m (b + (i + 1)) = 0xad := by
  induction l with
  | nil => simp [verifyFencepostLoop]
  | cons i rest ih =>
    unfold verifyFencepostLoop
    by_cases h : m (b + i) ≠ 0xde ∨ m (b + (i + 1)) ≠ 0xad
    · rw [if_pos h]
      constructor
      · intro hn
        split at hn <;> exact absurd hn (by simp)
      · intro hall
        have := hall i (List.mem_cons_self _ _)
        rcases h with h | h
        · exact absurd this.1 h
        · exact absurd this.2 h
    · rw [if_neg h, ih]
      have h' : m (b + i) = 0xde ∧ m (b + (i + 1)) = 0xad := by
        constructor
        · by_contra hc; exact h (Or.inl hc)
        · by_contra hc; exact h (Or.inr hc)
      simp [h']

theorem verifyFencepost_iff (m : Mem) (b : Nat) :
    verifyFencepost m b = true ↔ FenceIntact m b := by
  unfold verifyFencepost verifyFencepostReport FenceIntact FENCEPOST_LENGTH
  rw [Option.isNone_iff_eq_none, verifyFencepostLoop_eq_none, fencepostIndices_eq]
  constructor
  · intro h k hk
    have e0 := h 0 (by simp)
    have e2 := h 2 (by simp)
    have e4 := h 4 (by simp)
    have e6 := h 6 (by simp)
    interval_cases k <;> simp [fenceByte] <;> tauto
  · intro h i hi
    simp only [List.mem_cons, List.mem_singleton, List.not_mem_nil, or_false] at hi
    rcases hi with rfl | rfl | rfl | rfl
    · exact ⟨h 0 (by omega), h 1 (by omega)⟩
    · exact ⟨h 2 (by omega), h 3 (by omega)⟩
    · exact ⟨h 4 (by omega), h 5 (by omega)⟩
    · exact ⟨h 6 (by omega), h 7 (by omega)⟩

theorem verifyFencepost_eq_false_iff (m : Mem) (b : Nat) :
    verifyFencepost m b = false ↔ ¬ FenceIntact m b := by
  rw [← verifyFencepost_iff, Bool.not_eq_true]

theorem fenceIntact_setFencepost (m : Mem) (b : Nat) : FenceIntact (setFencepost m b) b := by
  intro k hk
  unfold FENCEPOST_LENGTH at hk
  rw [setFencepost_apply, if_pos (by omega), Nat.add_sub_cancel_left]

/-! ## Helper lemmas on the copy driver -/

theorem memcpyBytesOk_iff (m : Mem) (da sa n : Nat) :
    memcpyBytesOk m da sa n = true ↔
      ∀ j, j < n → m (da + j) = m (sa + j) ∧ m (da + j) ≠ 0 := by
  unfold memcpyBytesOk
  rw [List.all_eq_true]
  constructor
  · intro h j hj
    have := h j (List.mem_range.mpr hj)
    simp only [Bool.not_eq_true', Bool.or_eq_false_iff, bne_eq_false_iff_eq,
      beq_eq_false_iff_ne] at this
    exact ⟨this.1, by rw [this.1]; exact this.2⟩
  · intro h j hj
    have := h j (List.mem_range.mp hj)
    simp only [Bool.not_eq_true', Bool.or_eq_false_iff, bne_eq_false_iff_eq,
      beq_eq_false_iff_ne]
    exact ⟨this.1, by rw [← this.1]; exact this.2⟩

theorem memcpyVerify_iff (m : Mem) (dst da sa n : Nat) :
    memcpyVerify m dst da sa n = true ↔ CopyVerified m dst da sa n := by
  unfold memcpyVerify CopyVerified
  rw [← memcpyBytesOk_iff, ← verifyFencepost_iff, ← verifyFencepost_iff]
  cases memcpyBytesOk m da sa n <;> cases verifyFencepost m (da + n) <;>
    cases verifyFencepost m (da - 8) <;> by_cases h : da = dst <;> simp [h]

theorem memcpyLenLoop_append (f : MemcpyFn) (dst src i : Nat) (e : Align4)
    (l1 l2 : List Nat) (m : Mem) :
    memcpyLenLoop f dst src i e (l1 ++ l2) m =
      match memcpyLenLoop f dst src i e l1 m with
      | .done m1 => memcpyLenLoop f dst src i e l2 m1
      | .failed row len => .failed row len := by
  induction l1 generalizing m with
  | nil => rfl
  | cons a rest ih =>
    simp only [List.cons_append, memcpyLenLoop]
    split
    · exact ih _
    · rfl

theorem memcpyLenLoop_range_done_iff (f : MemcpyFn) (dst src i : Nat) (e : Align4)
    (n : Nat) (m m1 : Mem) :
    memcpyLenLoop f dst src i e (List.range n) m = .done m1 ↔
      (∀ t, t < n → memcpyTripOk f dst src e m t = true) ∧
        m1 = memcpyAfterLens f dst src e n m := by
  induction n generalizing m1 with
  | zero =>
    simp only [List.range_zero, memcpyLenLoop, Sweep.done.injEq, memcpyAfterLens]
    constructor
    · intro h
      exact ⟨fun t ht => absurd ht (Nat.not_lt_zero t), h.symm⟩
    · intro h
      exact h.2.symm
  | succ n ih =>
    rw [List.range_succ, memcpyLenLoop_append]
    constructor
    · intro h
      split at h
      · rename_i m2 hm2
        obtain ⟨hall, rfl⟩ := (ih m2).mp hm2
        simp only [memcpyLenLoop] at h
        split at h
        · rename_i hok
          simp only [Sweep.done.injEq] at h
          refine ⟨?_, h.symm⟩
          intro t ht
          rcases Nat.lt_succ_iff_lt_or_eq.mp ht with h1 | h1
          · exact hall t h1
          · rw [h1]; exact hok
        · exact absurd h (by simp)
      · exact absurd h (by simp)
    · rintro ⟨hall, rfl⟩
      have h1 := (ih (memcpyAfterLens f dst src e n m)).mpr
        ⟨fun t ht => hall t (Nat.lt_succ_of_lt ht), rfl⟩
      rw [h1]
      have hok := hall n (Nat.lt_succ_self n)
      unfold memcpyTripOk at hok
      simp only [memcpyLenLoop, hok, if_true, memcpyAfterLens]

theorem memcpyLenLoop_range_failed (f : MemcpyFn) (dst src i : Nat) (e : Align4)
    (n : Nat) (m : Mem) (t : Nat) (ht : t < n)
    (hbefore : ∀ u, u < t → memcpyTripOk f dst src e m u = true)
    (hfail : memcpyTripOk f dst src e m t = false) :
    memcpyLenLoop f dst src i e (List.range n) m = .failed i t := by
  induction n with
  | zero => exact absurd ht (Nat.not_lt_zero t)
  | succ n ih =>
    rw [List.range_succ, memcpyLenLoop_append]
    rcases Nat.lt_succ_iff_lt_or_eq.mp ht with h1 | h1
    · rw [ih h1]
    · subst h1
      have hd := (memcpyLenLoop_range_done_iff f dst src i e t m _).mpr ⟨hbefore, rfl⟩
      rw [hd]
      unfold memcpyTripOk at hfail
      simp only [memcpyLenLoop, hfail]
      rfl

theorem memcpyRowLoop_done (f : MemcpyFn) (dst src : Nat) (es : List Align4) (i0 : Nat)
    (m m1 : Mem) (h : memcpyRowLoop f dst src i0 es m = .done m1) :
    ∀ k t, k < es.length → t ≤ MAX_MEMCPY_TEST_SIZE →
      memcpyRowTripOk f dst src es m k t = true := by
  induction es generalizing i0 m with
  | nil => intro k t hk; exact absurd hk (Nat.not_lt_zero k)
  | cons e rest ih =>
    intro k t hk ht
    simp only [memcpyRowLoop] at h
    split at h
    · rename_i m2 hm2
      obtain ⟨hall, rfl⟩ := (memcpyLenLoop_range_done_iff f dst src i0 e _ m m2).mp hm2
      cases k with
      | zero =>
        simp only [memcpyRowTripOk, List.getD_cons_zero, List.take_zero, memcpyAfterRows]
        exact hall t (Nat.lt_succ_of_le ht)
      | succ k =>
        have := ih (i0 + 1) _ h k t (Nat.lt_of_succ_lt_succ hk) ht
        simpa only [memcpyRowTripOk, List.getD_cons_succ, List.take_succ_cons,
          memcpyAfterRows] using this
    · exact absurd h (by simp)

theorem memcpyRowLoop_failed (f : MemcpyFn) (dst src : Nat) (es : List Align4) (i0 : Nat)
    (m : Mem) (k t : Nat) (hk : k < es.length) (ht : t ≤ MAX_MEMCPY_TEST_SIZE)
    (hbefore : ∀ k1 t1, k1 < es.length → t1 ≤ MAX_MEMCPY_TEST_SIZE →
      (k1 < k ∨ (k1 = k ∧ t1 < t)) → memcpyRowTripOk f dst src es m k1 t1 = true)
    (hfail : memcpyRowTripOk f dst src es m k t = false) :
    memcpyRowLoop f dst src i0 es m = .failed (i0 + k) t := by
  induction es generalizing i0 m k with
  | nil => exact absurd hk (Nat.not_lt_zero k)
  | cons e rest ih =>
    simp only [memcpyRowLoop]
    cases k with
    | zero =>
      have hb : ∀ u, u < t → memcpyTripOk f dst src e m u = true := by
        intro u hu
        have := hbefore 0 u hk (le_trans (le_of_lt hu) ht) (Or.inr ⟨rfl, hu⟩)
        simpa only [memcpyRowTripOk, List.getD_cons_zero, List.take_zero, memcpyAfterRows]
          using this
      have hf : memcpyTripOk f dst src e m t = false := by
        simpa only [memcpyRowTripOk, List.getD_cons_zero, List.take_zero, memcpyAfterRows]
          using hfail
      rw [memcpyLenLoop_range_failed f dst src i0 e _ m t (Nat.lt_succ_of_le ht) hb hf]
      rfl
    | succ k =>
      have hall : ∀ u, u < MAX_MEMCPY_TEST_SIZE + 1 → memcpyTripOk f dst src e m u = true := by
        intro u hu
        have := hbefore 0 u (Nat.succ_pos _) (Nat.le_of_lt_succ hu) (Or.inl (Nat.succ_pos k))
        simpa only [memcpyRowTripOk, List.getD_cons_zero, List.take_zero, memcpyAfterRows]
          using this
      rw [(memcpyLenLoop_range_done_iff f dst src i0 e _ m _).mpr ⟨hall, rfl⟩]
      have hk1 : k < rest.length := Nat.lt_of_succ_lt_succ hk
      have := ih (i0 + 1) (memcpyAfterLens f dst src e (MAX_MEMCPY_TEST_SIZE + 1) m) k hk1
        (by
          intro k1 t1 hk1l ht1 hlt
          have := hbefore (k1 + 1) t1 (Nat.succ_lt_succ hk1l) ht1 (by omega)
          simpa only [memcpyRowTripOk, List.getD_cons_succ, List.take_succ_cons,
            memcpyAfterRows] using this)
        (by
          simpa only [memcpyRowTripOk, List.getD_cons_succ, List.take_succ_cons,
            memcpyAfterRows] using hfail)
      show memcpyRowLoop f dst src (i0 + 1) rest
          (memcpyAfterLens f dst src e (MAX_MEMCPY_TEST_SIZE + 1) m) = .failed (i0 + (k + 1)) t
      rw [this]
      congr 1
      omega

theorem memcpyRowTripOk_iff (f : MemcpyFn) (m : Mem) (dst src i n : Nat) :
    memcpyRowTripOk f dst src memcpyAligns (memcpyInitSrc m src) i n = true ↔
      CopyTripVerified f m dst src i n := by
  unfold memcpyRowTripOk memcpyTripOk CopyTripVerified memcpyStateAfterCall memcpyRow
  exact memcpyVerify_iff _ _ _ _ _

theorem memcpyRowLoop_of_all (f : MemcpyFn) (dst src : Nat) (es : List Align4) (i0 : Nat)
    (m : Mem)
    (hall : ∀ k t, k < es.length → t ≤ MAX_MEMCPY_TEST_SIZE →
      memcpyRowTripOk f dst src es m k t = true) :
    memcpyRowLoop f dst src i0 es m = .done (memcpyAfterRows f dst src es m) := by
  induction es generalizing i0 m with
  | nil => rfl
  | cons e rest ih =>
    simp only [memcpyRowLoop]
    have h0 : ∀ u, u < MAX_MEMCPY_TEST_SIZE + 1 → memcpyTripOk f dst src e m u = true := by
      intro u hu
      have := hall 0 u (Nat.succ_pos _) (Nat.le_of_lt_succ hu)
      simpa only [memcpyRowTripOk, List.getD_cons_zero, List.take_zero, memcpyAfterRows]
        using this
    rw [(memcpyLenLoop_range_done_iff f dst src i0 e _ m _).mpr ⟨h0, rfl⟩]
    show memcpyRowLoop f dst src (i0 + 1) rest
        (memcpyAfterLens f dst src e (MAX_MEMCPY_TEST_SIZE + 1) m) = _
    rw [ih (i0 + 1) (memcpyAfterLens f dst src e (MAX_MEMCPY_TEST_SIZE + 1) m)]
    · rfl
    · intro k t hk ht
      have := hall (k + 1) t (Nat.succ_lt_succ hk) ht
      simpa only [memcpyRowTripOk, List.getD_cons_succ, List.take_succ_cons,
        memcpyAfterRows] using this

/-- The driver passes when no allocation failed and every trip verifies. -/
theorem runMemcpyTest_of_verified (f : MemcpyFn) (m : Mem) (dst src : Nat)
    (hdst : dst ≠ 0) (hsrc : src ≠ 0)
    (hall : ∀ i n, i < memcpyAligns.length → n ≤ MAX_MEMCPY_TEST_SIZE →
      CopyTripVerified f m dst src i n) :
    runMemcpyTest f m dst src = true := by
  unfold runMemcpyTest memcpySweep
  rw [if_neg (by simp [hdst, hsrc]), memcpyRowLoop_of_all]
  · rfl
  · intro k t hk ht
    exact (memcpyRowTripOk_iff f m dst src k t).mpr (hall k t hk ht)

theorem overrunCopy_not_verified :
    ¬ CopyTripVerified overrunCopy (fun _ => 0) 0x10000 0x20000 0 0 := by
  intro h
  have h0 := h.2.1 0 (by decide)
  revert h0
  decide

/-! ## The reference copy passes the copy driver -/

theorem store_apply (m : Mem) (a v x : Nat) :
    store m a v x = if x = a then v % 256 else m x := rfl

theorem srcPattern_ne_zero (i : Nat) : srcPattern i ≠ 0 := by
  unfold srcPattern
  split
  · decide
  · assumption

theorem memcpyInitStep_apply (src : Nat) (m : Mem) (i x : Nat) :
    memcpyInitStep src m i x = if x = src + i then srcPattern i else m x := by
  have hmod : i % 256 < 256 := Nat.mod_lt _ (by decide)
  unfold memcpyInitStep srcPattern
  simp only [store_apply, if_true, Nat.mod_mod]
  by_cases hx : x = src + i
  · by_cases h0 : i % 256 = 0
    · simp [h0, hx, store_apply]
    · simp [h0, hx, store_apply]
  · by_cases h0 : i % 256 = 0
    · simp [h0, hx, store_apply]
    · simp [h0, hx, store_apply]

theorem memcpyInitSrc_fold (m : Mem) (src n x : Nat) :
    (List.range n).foldl (memcpyInitStep src) m x
      = if src ≤ x ∧ x < src + n then srcPattern (x - src) else m x := by
  induction n with
  | zero =>
    rw [List.range_zero, List.foldl_nil, if_neg (by omega)]
  | succ n ih =>
    rw [List.range_succ, List.foldl_append, List.foldl_cons, List.foldl_nil,
      memcpyInitStep_apply, ih]
    by_cases hx : x = src + n
    · rw [if_pos hx, if_pos (by omega), hx, Nat.add_sub_cancel_left]
    · rw [if_neg hx]
      by_cases h1 : src ≤ x ∧ x < src + n
      · rw [if_pos h1, if_pos (by omega)]
      · rw [if_neg h1, if_neg (by omega)]

theorem srcKept_memcpyInitSrc (m : Mem) (src : Nat) : SrcKept (memcpyInitSrc m src) src := by
  intro x h1 h2
  unfold memcpyInitSrc
  rw [memcpyInitSrc_fold, if_pos ⟨h1, h2⟩]

/-- A trip with the reference copy leaves the source block as it was. -/
theorem memcpyCall_referenceCopy_frame (dst src : Nat) (e : Align4) (len : Nat) (m : Mem)
    (hp : RowPlaced dst src e) (hlen : len ≤ MAX_MEMCPY_TEST_SIZE) (x : Nat)
    (h1 : src ≤ x) (h2 : x < src + MAX_MEMCPY_BUFFER_SIZE) :
    memcpyCall referenceCopy dst src e len m x = m x := by
  obtain ⟨h8, hoff, _, _⟩ := hp
  unfold MAX_MEMCPY_BUFFER_SIZE MAX_MEMCPY_TEST_SIZE at *
  unfold memcpyCall
  generalize memcpyDstAlign dst e = da at h8 hoff ⊢
  generalize memcpySrcAlign src e = sa
  simp only [referenceCopy]
  rw [if_neg (by omega), setFencepost_apply, if_neg (by omega)]
  by_cases hd : da = dst
  · rw [if_neg (by simp [hd])]
    unfold libcMemset
    rw [if_neg (by omega)]
  · have := h8 hd
    have hoff2 : da + (2048 + 8) ≤ src ∨ src + 3 * 2048 + 8 ≤ da := by
      rcases hoff with h | ⟨_, h⟩
      · exact Or.inl h
      · exact Or.inr (h hd)
    rw [if_pos hd, setFencepost_apply, if_neg (by omega)]
    unfold libcMemset
    rw [if_neg (by omega)]

/-- A trip with the reference copy verifies when the source block holds its pattern. -/
theorem memcpyCall_referenceCopy_verified (dst src : Nat) (e : Align4) (len : Nat) (m : Mem)
    (hp : RowPlaced dst src e) (hlen : len ≤ MAX_MEMCPY_TEST_SIZE) (hm : SrcKept m src) :
    CopyVerified (memcpyCall referenceCopy dst src e len m) dst
      (memcpyDstAlign dst e) (memcpySrcAlign src e) len := by
  have hframe := memcpyCall_referenceCopy_frame dst src e len m hp hlen
  obtain ⟨h8, hoff, hs1, hs2⟩ := hp
  unfold SrcKept at hm
  unfold MAX_MEMCPY_BUFFER_SIZE MAX_MEMCPY_TEST_SIZE at *
  refine ⟨?_, ?_, ?_⟩
  · intro j hj
    have hsrc : memcpyCall referenceCopy dst src e len m (memcpySrcAlign src e + j)
        = srcPattern (memcpySrcAlign src e + j - src) := by
      rw [hframe _ (by omega) (by omega)]
      exact hm _ (by omega) (by omega)
    have hdst : memcpyCall referenceCopy dst src e len m (memcpyDstAlign dst e + j)
        = srcPattern (memcpySrcAlign src e + j - src) := by
      rw [← hm _ (by omega) (by omega)]
      unfold memcpyCall
      generalize memcpyDstAlign dst e = da at h8 hoff ⊢
      generalize memcpySrcAlign src e = sa at hs1 hs2 ⊢
      simp only [referenceCopy]
      rw [if_pos (by omega), Nat.add_sub_cancel_left, setFencepost_apply, if_neg (by omega)]
      by_cases hd : da = dst
      · rw [if_neg (by simp [hd])]
        unfold libcMemset
        rw [if_neg (by omega)]
      · have := h8 hd
        have hoff2 : da + (2048 + 8) ≤ src ∨ src + 3 * 2048 + 8 ≤ da := by
          rcases hoff with h | ⟨_, h⟩
          · exact Or.inl h
          · exact Or.inr (h hd)
        rw [if_pos hd, setFencepost_apply, if_neg (by omega)]
        unfold libcMemset
        rw [if_neg (by omega)]
    rw [hdst, hsrc]
    exact ⟨rfl, srcPattern_ne_zero _⟩
  · intro k hk
    unfold FENCEPOST_LENGTH at hk
    unfold memcpyCall
    generalize memcpyDstAlign dst e = da
    generalize memcpySrcAlign src e = sa
    simp only [referenceCopy]
    rw [if_neg (by omega), setFencepost_apply, if_pos (by omega), Nat.add_sub_cancel_left]
  · intro hd k hk
    have := h8 hd
    unfold FENCEPOST_LENGTH at hk
    unfold memcpyCall
    generalize memcpyDstAlign dst e = da at h8 hoff hd this ⊢
    generalize memcpySrcAlign src e = sa
    simp only [referenceCopy]
    rw [if_neg (by omega), setFencepost_apply, if_neg (by omega), if_pos hd,
      setFencepost_apply, if_pos (by omega), Nat.add_sub_cancel_left]

theorem srcKept_memcpyAfterLens (dst src : Nat) (e : Align4) (hp : RowPlaced dst src e)
    (n : Nat) (hn : n ≤ MAX_MEMCPY_TEST_SIZE + 1) (m : Mem) (hm : SrcKept m src) :
    SrcKept (memcpyAfterLens referenceCopy dst src e n m) src := by
  induction n with
  | zero => exact hm
  | succ n ih =>
    intro x h1 h2
    unfold memcpyAfterLens
    rw [memcpyCall_referenceCopy_frame dst src e n _ hp (by omega) x h1 h2]
    exact ih (by omega) x h1 h2

theorem srcKept_memcpyAfterRows (dst src : Nat) (es : List Align4)
    (hp : ∀ e ∈ es, RowPlaced dst src e) (m : Mem) (hm : SrcKept m src) :
    SrcKept (memcpyAfterRows referenceCopy dst src es m) src := by
  induction es generalizing m with
  | nil => exact hm
  | cons e rest ih =>
    unfold memcpyAfterRows
    exact ih (fun e1 he1 => hp e1 (List.mem_cons_of_mem _ he1)) _
      (srcKept_memcpyAfterLens dst src e (hp e (List.mem_cons_self _ _)) _ (le_refl _) m hm)

theorem memcpyRow_mem (i : Nat) (hi : i < memcpyAligns.length) : memcpyRow i ∈ memcpyAligns := by
  unfold memcpyRow
  rw [List.getD_eq_getElem _ _ hi]
  exact List.getElem_mem _

/-- Every trip of the copy driver verifies for the reference copy, when all rows are
well placed. -/
theorem referenceCopy_verified (m : Mem) (dst src : Nat)
    (hp : ∀ e ∈ memcpyAligns, RowPlaced dst src e) (i n : Nat)
    (hi : i < memcpyAligns.length) (hn : n ≤ MAX_MEMCPY_TEST_SIZE) :
    CopyTripVerified referenceCopy m dst src i n := by
  unfold CopyTripVerified memcpyStateAfterCall
  apply memcpyCall_referenceCopy_verified dst src _ n _ (hp _ (memcpyRow_mem i hi)) hn
  apply srcKept_memcpyAfterLens dst src _ (hp _ (memcpyRow_mem i hi)) n (by omega)
  apply srcKept_memcpyAfterRows dst src _ (fun e he => hp e (List.mem_of_mem_take he))
  exact srcKept_memcpyInitSrc m src

set_option maxRecDepth 100000 in
/-- All rows are well placed for the allocations `dst = 0x10000`, `src = 0x20000`. -/
theorem rowPlaced_at_instance : ∀ e ∈ memcpyAligns, RowPlaced 0x10000 0x20000 e := by
  unfold RowPlaced
  decide

/-! ## Helper lemmas on the fill driver and the over-read sub-test -/

theorem memsetBufAlign_zero (buf : Nat) : memsetBufAlign buf ⟨0, 0⟩ = buf + 8 := by
  unfold memsetBufAlign memsetRowCondition getAlignedPtr FENCEPOST_LENGTH
  simp

theorem memsetPrepare_head (buf len : Nat) (m : Mem) :
    FenceIntact (memsetPrepare buf (buf + 8) len m) buf := by
  intro k hk
  unfold FENCEPOST_LENGTH at hk
  unfold memsetPrepare
  simp only [Nat.add_sub_cancel]
  rw [setFencepost_apply, if_neg (by omega), if_pos (by omega), setFencepost_apply,
    if_pos (by omega), Nat.add_sub_cancel_left]

theorem checkReadMaxSize_of_lt (P : Nat) (h1 : 1 ≤ P) (h : P < 1024) :
    checkReadMaxSize (P : Int) = P - 1 := by
  unfold checkReadMaxSize MAX_STRCMP_TEST_SIZE
  have hlt : (P : Int) < ((1024 : Nat) : Int) := by exact_mod_cast h
  rw [if_pos hlt]
  have : (P : Int) - 1 = ((P - 1 : Nat) : Int) := by
    rw [Nat.cast_sub h1]; rfl
  rw [this]
  exact toU64_of_lt (by omega)

theorem checkReadMaxSize_of_ge (P : Nat) (h : 1024 ≤ P) :
    checkReadMaxSize (P : Int) = 1024 := by
  unfold checkReadMaxSize MAX_STRCMP_TEST_SIZE
  have hlt : ¬ (P : Int) < ((1024 : Nat) : Int) := by
    intro hc
    have : P < 1024 := by exact_mod_cast hc
    omega
  rw [if_neg hlt]

/-- Away from the page size 1024, and for a page size that fits a `long`, every trip of the over-read sub-test places the string
and its terminator in the last `i + 1` bytes of the first page, and the stores into
`other_string` stay inside its `max_size + 2` bytes. -/
theorem checkRead_placement (P : Nat) (h1 : 1 ≤ P) (hlong : P < 2 ^ 63) (hne : P ≠ 1024)
    (i : Nat) (hi : i ∈ checkReadLengths (P : Int)) :
    i + 1 ≤ P ∧ checkReadIndex (P : Int) i = P - i - 1
      ∧ checkReadIndex (P : Int) i + i = P - 1
      ∧ ∀ o ∈ checkReadOtherOffsets i, o < checkReadMaxSize (P : Int) + 2 := by
  unfold checkReadLengths at hi
  rw [List.mem_range] at hi
  have hle : i + 1 ≤ P ∧ i ≤ checkReadMaxSize (P : Int) := by
    rcases Nat.lt_or_ge P 1024 with h | h
    · rw [checkReadMaxSize_of_lt P h1 h] at hi ⊢
      omega
    · rw [checkReadMaxSize_of_ge P h] at hi ⊢
      omega
  have hidx : checkReadIndex (P : Int) i = P - i - 1 := by
    unfold checkReadIndex
    have : (P : Int) - (i : Int) - 1 = ((P - i - 1 : Nat) : Int) := by omega
    rw [this]
    exact toU64_of_lt (by omega)
  refine ⟨hle.1, hidx, by rw [hidx]; omega, ?_⟩
  intro o ho
  unfold checkReadOtherOffsets at ho
  simp only [List.mem_append, List.mem_range, List.mem_cons, List.mem_singleton,
    List.not_mem_nil, or_false] at ho
  omega

set_option maxRecDepth 100000 in
theorem memsetSweep_underrunFill :
    memsetSweep underrunFill (fun _ => 0) 0x10000 = Sweep.failed 0 0 := by
  rfl

set_option maxRecDepth 100000 in
theorem checkReadFill_before_region :
    checkReadFill 1024 0x100000 0x200000 1024 (fun _ => 0) 0xfffff = 0x20 := by
  decide

/-! ## Helper lemmas for the fill value -/

/-- A trip of the fill driver that verifies found every byte equal to the value. -/
theorem memsetVerify_bytes (m : Mem) (buf buf_align len : Nat) (value : Int)
    (h : memsetVerify m buf buf_align len value = true) :
    ∀ j, j < len → ((m (buf_align + j) : Nat) : Int) = value := by
  intro j hj
  unfold memsetVerify at h
  split at h
  · exact absurd h (by simp)
  · rename_i hall
    simp only [Bool.not_eq_true', Bool.not_eq_false, List.all_eq_true, List.mem_range] at hall
    have := hall j hj
    simpa using this

/-! ## Bounds on getAlignedPtr -/

theorem le_or_left (x y : Nat) : x ≤ x ||| y := by
  apply Nat.le_of_testBit
  intro i h
  rw [Nat.testBit_or, h, Bool.true_or]

theorem or_div_two (x y : Nat) : (x ||| y) / 2 = x / 2 ||| y / 2 := by
  apply Nat.eq_of_testBit_eq
  intro i
  rw [Nat.testBit_or, ← Nat.testBit_succ, ← Nat.testBit_succ, ← Nat.testBit_succ,
    Nat.testBit_or]

theorem or_le_add (x y : Nat) : x ||| y ≤ x + y := by
  induction x using Nat.strong_induction_on generalizing y with
  | _ x ih =>
    rcases Nat.eq_zero_or_pos x with h0 | hpos
    · subst h0
      simp
    · have hdiv := or_div_two x y
      have hrec := ih (x / 2) (by omega) (y / 2)
      have hmod : (x ||| y) % 2 ≤ x % 2 + y % 2 := by
        rcases Nat.mod_two_eq_zero_or_one (x ||| y) with h | h
        · omega
        · rcases Nat.or_mod_two_eq_one.mp h with h1 | h1 <;> omega
      omega

/-- The result for a power-of-two alignment and a non-negative mask, in closed form. -/
theorem getAlignedPtr_eq (base k m : Nat) (hk : k ≤ 30) :
    getAlignedPtr base ((2 ^ k : Nat) : Int) (m : Int)
      = ((base + (2 ^ k - base % 2 ^ k)) % 2 ^ 64) ||| ((2 ^ k ||| m) % 2 ^ 64) := by
  have hpos : 0 < 2 ^ k := Nat.two_pow_pos k
  have hle : 2 ^ k ≤ 2 ^ 30 := two_pow_le_30 hk
  have hlt : 2 ^ k < 2 ^ 64 := lt_of_le_of_lt hle (by decide)
  have hmod : base % 2 ^ k < 2 ^ k := Nat.mod_lt _ hpos
  have h1 : (((2 ^ k : Nat) : Int) - 1) = ((2 ^ k - 1 : Nat) : Int) := by
    rw [Nat.cast_sub hpos]; rfl
  have hlow : base &&& toU64 (((2 ^ k : Nat) : Int) - 1) = base % 2 ^ k := by
    rw [h1, toU64_of_lt (lt_of_le_of_lt (Nat.sub_le _ _) hlt),
      Nat.and_pow_two_sub_one_eq_mod]
  have hdelta : toU64 ((toU64 ((2 ^ k : Nat) : Int) : Int) - ((base % 2 ^ k : Nat) : Int))
      = 2 ^ k - base % 2 ^ k := by
    rw [toU64_of_lt hlt, ← Nat.cast_sub (le_of_lt hmod)]
    exact toU64_of_lt (lt_of_le_of_lt (Nat.sub_le _ _) hlt)
  have hgt : ((2 ^ k : Nat) : Int) > 0 := by exact_mod_cast hpos
  have hlor : Int.lor ((2 ^ k : Nat) : Int) (m : Int) = ((2 ^ k ||| m : Nat) : Int) := rfl
  unfold getAlignedPtr
  simp only [if_pos hgt]
  rw [hlow, hdelta, hlor, toU64_natCast]

/-- Without 64-bit wrap, the result lies strictly above the base and at most
`2 * alignment + or_mask` above it. -/
theorem getAlignedPtr_bounds (base k m : Nat) (hk : k ≤ 30) (hfit : base + 2 ^ k < 2 ^ 64) :
    base < getAlignedPtr base ((2 ^ k : Nat) : Int) (m : Int)
    ∧ getAlignedPtr base ((2 ^ k : Nat) : Int) (m : Int) ≤ base + 2 * 2 ^ k + m := by
  have hpos : 0 < 2 ^ k := Nat.two_pow_pos k
  have hmod : base % 2 ^ k < 2 ^ k := Nat.mod_lt _ hpos
  rw [getAlignedPtr_eq base k m hk, Nat.mod_eq_of_lt (by omega)]
  constructor
  · exact lt_of_lt_of_le (by omega) (le_or_left _ _)
  · have h1 := or_le_add (base + (2 ^ k - base % 2 ^ k)) ((2 ^ k ||| m) % 2 ^ 64)
    have h2 : (2 ^ k ||| m) % 2 ^ 64 ≤ 2 ^ k ||| m := Nat.mod_le _ _
    have h3 := or_le_add (2 ^ k) m
    omega

/-- The bounds for the alignments and masks of the tables. -/
theorem getAlignedPtr_table_bounds (base : Nat) (a mask : Int) (h : TableAligned a mask)
    (hfit : base + 128 < 2 ^ 64) :
    base < getAlignedPtr base a mask
    ∧ (getAlignedPtr base a mask : Int) ≤ (base : Int) + 2 * a + mask := by
  obtain ⟨ha, h0, _⟩ := h
  obtain ⟨m, rfl⟩ := Int.eq_ofNat_of_zero_le h0
  unfold tableAlignments at ha
  simp only [List.mem_cons, List.mem_singleton, List.not_mem_nil, or_false] at ha
  rcases ha with rfl | rfl | rfl | rfl | rfl | rfl | rfl | rfl
  · have := getAlignedPtr_bounds base 0 m (by decide) (by omega)
    exact ⟨this.1, by exact_mod_cast this.2⟩
  · have := getAlignedPtr_bounds base 1 m (by decide) (by omega)
    exact ⟨this.1, by exact_mod_cast this.2⟩
  · have := getAlignedPtr_bounds base 2 m (by decide) (by omega)
    exact ⟨this.1, by exact_mod_cast this.2⟩
  · have := getAlignedPtr_bounds base 3 m (by decide) (by omega)
    exact ⟨this.1, by exact_mod_cast this.2⟩
  · have := getAlignedPtr_bounds base 4 m (by decide) (by omega)
    exact ⟨this.1, by exact_mod_cast this.2⟩
  · have := getAlignedPtr_bounds base 5 m (by decide) (by omega)
    exact ⟨this.1, by exact_mod_cast this.2⟩
  · have := getAlignedPtr_bounds base 6 m (by decide) (by omega)
    exact ⟨this.1, by exact_mod_cast this.2⟩
  · have := getAlignedPtr_bounds base 7 m (by decide) (by omega)
    exact ⟨this.1, by exact_mod_cast this.2⟩
theorem tableAlignments_le : ∀ a ∈ tableAlignments, 1 ≤ a ∧ a ≤ 128 := by decide

set_option maxRecDepth 100000 in
theorem memcpyAligns_shape :
    ∀ e ∈ memcpyAligns, e.a0 = 0 ∨ (TableAligned e.a0 e.a1 ∧ TableAligned e.a2 e.a3) := by
  unfold TableAligned
  decide

theorem memsetAligns_shape :
    ∀ e ∈ memsetAligns, e.a0 = 0 ∨ TableAligned e.a0 e.a1 := by
  unfold TableAligned
  decide

/-- An aligned pointer of the tables, taken from `base + 8`, lies in
`(base + 8, base + 280]`. -/
theorem getAlignedPtr_fence_bounds (base : Nat) (a mask : Int) (h : TableAligned a mask)
    (hfit : base + 6144 ≤ 2 ^ 64) :
    base + 8 < getAlignedPtr (base + FENCEPOST_LENGTH) a mask
    ∧ getAlignedPtr (base + FENCEPOST_LENGTH) a mask ≤ base + 280 := by
  unfold FENCEPOST_LENGTH
  have hb := getAlignedPtr_table_bounds (base + 8) a mask h (by omega)
  have ha := tableAlignments_le a h.1
  have hm := h.2.2
  refine ⟨hb.1, ?_⟩
  have h2 := hb.2
  push_cast at h2
  omega

theorem memcpyDstAlign_bounds (dst : Nat) (e : Align4) (he : e ∈ memcpyAligns)
    (hfit : dst + 6144 ≤ 2 ^ 64) :
    dst ≤ memcpyDstAlign dst e
    ∧ (memcpyDstAlign dst e ≠ dst → dst + 8 < memcpyDstAlign dst e)
    ∧ memcpyDstAlign dst e ≤ dst + 280 := by
  unfold memcpyDstAlign
  rcases memcpyAligns_shape e he with h0 | ⟨h1, h2⟩
  · rw [if_neg (by simp [h0])]
    exact ⟨le_refl _, fun h => absurd rfl h, by omega⟩
  · have ha := tableAlignments_le _ h1.1
    rw [if_pos (by omega)]
    have := getAlignedPtr_fence_bounds dst e.a2 e.a3 h2 hfit
    exact ⟨by omega, fun _ => this.1, this.2⟩

theorem memcpySrcAlign_bounds (src : Nat) (e : Align4) (he : e ∈ memcpyAligns)
    (hfit : src + 6144 ≤ 2 ^ 64) :
    src ≤ memcpySrcAlign src e ∧ memcpySrcAlign src e ≤ src + 280 := by
  unfold memcpySrcAlign
  rcases memcpyAligns_shape e he with h0 | ⟨h1, h2⟩
  · rw [if_neg (by simp [h0])]
    exact ⟨le_refl _, by omega⟩
  · have ha := tableAlignments_le _ h1.1
    rw [if_pos (by omega)]
    have := getAlignedPtr_fence_bounds src e.a0 e.a1 h1 hfit
    exact ⟨by omega, this.2⟩

theorem memsetBufAlign_bounds (buf : Nat) (e : Align2) (he : e ∈ memsetAligns)
    (hfit : buf + 6144 ≤ 2 ^ 64) :
    buf + 8 ≤ memsetBufAlign buf e ∧ memsetBufAlign buf e ≤ buf + 280 := by
  unfold memsetBufAlign memsetRowCondition
  rw [if_pos rfl]
  rcases memsetAligns_shape e he with h0 | h1
  · unfold getAlignedPtr FENCEPOST_LENGTH
    rw [if_neg (by omega)]
    exact ⟨le_refl _, by omega⟩
  · have := getAlignedPtr_fence_bounds buf e.a0 e.a1 h1 hfit
    exact ⟨by omega, this.2⟩

/-! ## Placement of the rows for disjoint allocations -/

/-- For allocations that do not overlap, every row of the copy table is well placed. -/
theorem rowPlaced_of_disjoint (dst src : Nat)
    (hdfit : dst + MAX_MEMCPY_BUFFER_SIZE ≤ 2 ^ 64)
    (hsfit : src + MAX_MEMCPY_BUFFER_SIZE ≤ 2 ^ 64)
    (hdisj : dst + MAX_MEMCPY_BUFFER_SIZE ≤ src ∨ src + MAX_MEMCPY_BUFFER_SIZE ≤ dst) :
    ∀ e ∈ memcpyAligns, RowPlaced dst src e := by
  intro e he
  unfold MAX_MEMCPY_BUFFER_SIZE MAX_MEMCPY_TEST_SIZE at *
  have hd := memcpyDstAlign_bounds dst e he (by omega)
  have hs := memcpySrcAlign_bounds src e he (by omega)
  unfold RowPlaced MAX_MEMCPY_BUFFER_SIZE MAX_MEMCPY_TEST_SIZE
  refine ⟨?_, ?_, hs.1, by omega⟩
  · intro h
    have := hd.2.1 h
    omega
  · rcases hdisj with h | h
    · exact Or.inl (by omega)
    · refine Or.inr ⟨by omega, ?_⟩
      intro hne
      have := hd.2.1 hne
      omega

/-- A primitive that meets the contract of the byte-exact copy is the reference copy. -/
theorem eq_referenceCopy (f : MemcpyFn)
    (hf : ∀ (m : Mem) (d s n : Nat),
      (∀ j, j < n → f m d s n (d + j) = m (s + j))
      ∧ (∀ x, x < d ∨ d + n ≤ x → f m d s n x = m x)) :
    f = referenceCopy := by
  funext m d s n x
  unfold referenceCopy
  by_cases h : d ≤ x ∧ x < d + n
  · rw [if_pos h]
    have := (hf m d s n).1 (x - d) (by omega)
    rw [Nat.add_sub_cancel' h.1] at this
    exact this
  · rw [if_neg h]
    exact (hf m d s n).2 x (by omega)

/-! ## Helper lemmas on the compare driver -/

theorem patternChar_range (j : Nat) : 32 ≤ patternChar j ∧ patternChar j ≤ 127 := by
  unfold patternChar
  have := Nat.mod_lt j (show 0 < 96 by decide)
  omega

/-- A loop that stores `g1 j` at `b1 + j` and `g2 j` at `b2 + j` in trip `j`, over two
ranges that do not overlap. -/
theorem pairFold_apply (st : Mem → Nat → Mem) (b1 b2 : Nat) (g1 g2 : Nat → Nat)
    (hst : ∀ m j x, st m j x = if x = b2 + j then g2 j else if x = b1 + j then g1 j else m x)
    (n : Nat) (hdisj : b1 + n ≤ b2 ∨ b2 + n ≤ b1) (m : Mem) (x : Nat) :
    (List.range n).foldl st m x =
      if b1 ≤ x ∧ x < b1 + n then g1 (x - b1)
      else if b2 ≤ x ∧ x < b2 + n then g2 (x - b2) else m x := by
  induction n with
  | zero =>
    rw [List.range_zero, List.foldl_nil, if_neg (by omega), if_neg (by omega)]
  | succ n ih =>
    rw [List.range_succ, List.foldl_append, List.foldl_cons, List.foldl_nil, hst,
      ih (by omega)]
    split_ifs <;>
      first
      | rfl
      | (exfalso; omega)
      | (congr 1; omega)

theorem expectEqualStep_apply (a1 a2 : Nat) (m : Mem) (j x : Nat) :
    expectEqualStep a1 a2 m j x =
      if x = a2 + j then patternChar j else if x = a1 + j then patternChar j else m x := by
  have hp := patternChar_range j
  unfold expectEqualStep
  simp only [store_apply, if_true]
  rw [Nat.mod_eq_of_lt (by omega), Nat.mod_eq_of_lt (by omega)]

theorem expectEqualPoison_apply (a1 a2 : Nat) (m : Mem) (j x : Nat) :
    expectEqualPoison a1 a2 m j x =
      if x = a2 + j then (40 + j) % 256 else if x = a1 + j then (32 + j) % 256 else m x := by
  unfold expectEqualPoison
  simp only [store_apply]

/-- The memory on which the comparator is called for the length `i`, in closed form. -/
theorem expectEqualFill_apply (a1 a2 i : Nat) (m : Mem) (x : Nat)
    (hdisj : a1 + (i + 64) ≤ a2 ∨ a2 + (i + 64) ≤ a1) :
    expectEqualFill a1 a2 i m x =
      if a1 + (i + 1) ≤ x ∧ x < a1 + (i + 1) + 63 then (32 + (i + 1 + (x - (a1 + (i + 1))))) % 256
      else if a2 + (i + 1) ≤ x ∧ x < a2 + (i + 1) + 63 then
        (40 + (i + 1 + (x - (a2 + (i + 1))))) % 256
      else if x = a2 + i then 0
      else if x = a1 + i then 0
      else if a1 ≤ x ∧ x < a1 + i then patternChar (x - a1)
      else if a2 ≤ x ∧ x < a2 + i then patternChar (x - a2)
      else m x := by
  unfold expectEqualFill
  rw [List.range'_eq_map_range, List.foldl_map]
  rw [pairFold_apply (fun m k => expectEqualPoison a1 a2 m (i + 1 + k)) (a1 + (i + 1))
    (a2 + (i + 1)) (fun k => (32 + (i + 1 + k)) % 256) (fun k => (40 + (i + 1 + k)) % 256)
    (by
      intro m j x
      simp only [expectEqualPoison_apply, Nat.add_assoc])
    63 (by omega)]
  simp only [store_apply, Nat.zero_mod]
  rw [pairFold_apply (expectEqualStep a1 a2) a1 a2 patternChar patternChar
    (expectEqualStep_apply a1 a2) i (by omega)]
/-- The strings built for the length `i` are as `EqualStrings` says, when the two ranges
written do not overlap. -/
theorem equalStrings_expectEqualFill (a1 a2 i : Nat) (m : Mem)
    (hdisj : a1 + (i + 64) ≤ a2 ∨ a2 + (i + 64) ≤ a1) :
    EqualStrings (expectEqualFill a1 a2 i m) a1 a2 i := by
  have hpat1 : ∀ j, j < i → expectEqualFill a1 a2 i m (a1 + j) = patternChar j := by
    intro j hj
    rw [expectEqualFill_apply a1 a2 i m _ hdisj, if_neg (by omega), if_neg (by omega),
      if_neg (by omega), if_neg (by omega), if_pos (by omega), Nat.add_sub_cancel_left]
  have hpat2 : ∀ j, j < i → expectEqualFill a1 a2 i m (a2 + j) = patternChar j := by
    intro j hj
    rw [expectEqualFill_apply a1 a2 i m _ hdisj, if_neg (by omega), if_neg (by omega),
      if_neg (by omega), if_neg (by omega), if_neg (by omega), if_pos (by omega),
      Nat.add_sub_cancel_left]
  have hz1 : expectEqualFill a1 a2 i m (a1 + i) = 0 := by
    rw [expectEqualFill_apply a1 a2 i m _ hdisj, if_neg (by omega), if_neg (by omega),
      if_neg (by omega), if_pos rfl]
  have hz2 : expectEqualFill a1 a2 i m (a2 + i) = 0 := by
    rw [expectEqualFill_apply a1 a2 i m _ hdisj, if_neg (by omega), if_neg (by omega),
      if_pos rfl]
  refine ⟨?_, ?_, hz1, hz2, ?_⟩
  · intro j hj
    rcases Nat.lt_or_eq_of_le hj with h | h
    · rw [hpat1 j h, hpat2 j h]
    · rw [h, hz1, hz2]
  · intro j hj
    have := patternChar_range j
    rw [hpat1 j hj, hpat2 j hj]
    omega
  · intro j h1 h2
    have e1 : expectEqualFill a1 a2 i m (a1 + j) = (32 + j) % 256 := by
      rw [expectEqualFill_apply a1 a2 i m _ hdisj, if_pos (by omega)]
      congr 2
      omega
    have e2 : expectEqualFill a1 a2 i m (a2 + j) = (40 + j) % 256 := by
      rw [expectEqualFill_apply a1 a2 i m _ hdisj, if_neg (by omega), if_pos (by omega)]
      congr 2
      omega
    refine ⟨e1, e2, ?_⟩
    rw [e1, e2]
    omega

theorem stringAligns_shape :
    ∀ e ∈ stringAligns,
      (e.a0 = 0 ∨ (TableAligned e.a0 e.a1 ∧ e.a0 ≤ 8 ∧ e.a1 ≤ 3))
      ∧ (e.a2 = 0 ∨ (TableAligned e.a2 e.a3 ∧ e.a2 ≤ 8 ∧ e.a3 ≤ 3)) := by
  unfold TableAligned
  decide

theorem diffAligns_shape :
    ∀ d ∈ diffAligns, TableAligned d.a0 d.a1 ∧ d.a0 ≤ 8 ∧ d.a1 ≤ 3 := by
  unfold TableAligned
  decide

/-- An aligned string of the compare driver starts at most 19 bytes into its buffer. -/
theorem alignedString_bounds (s : Nat) (a mask : Int)
    (h : a = 0 ∨ (TableAligned a mask ∧ a ≤ 8 ∧ mask ≤ 3))
    (hfit : s + (MAX_STRCMP_BUFFER_SIZE + 1) ≤ 2 ^ 64) :
    s ≤ getAlignedPtr s a mask ∧ getAlignedPtr s a mask ≤ s + 19 := by
  unfold MAX_STRCMP_BUFFER_SIZE MAX_STRCMP_TEST_SIZE at hfit
  rcases h with h0 | ⟨ht, ha, hm⟩
  · unfold getAlignedPtr
    rw [if_neg (by omega)]
    exact ⟨le_refl _, by omega⟩
  · have hb := getAlignedPtr_table_bounds s a mask ht (by omega)
    refine ⟨le_of_lt hb.1, ?_⟩
    have h2 := hb.2
    omega

/-! ## Helper lemmas on the difference test -/

theorem diffPattern_props (dc i : Nat) :
    diffPattern dc i ≠ dc ∧ diffPattern dc i ≠ 0 ∧ diffPattern dc i < 256 := by
  have hp := patternChar_range i
  unfold diffPattern
  split
  · rename_i h
    have hdc : 32 ≤ dc ∧ dc ≤ 127 := by omega
    have : toChar ((dc : Int) - 1) = dc - 1 := by
      unfold toChar
      omega
    rw [this]
    omega
  · rename_i h
    exact ⟨h, by omega, by omega⟩

theorem expectDiffStep_apply (a1 a2 dc : Nat) (m : Mem) (i x : Nat) :
    expectDiffStep a1 a2 dc m i x =
      if x = a2 + i then diffPattern dc i else if x = a1 + i then diffPattern dc i
      else m x := by
  have hp := patternChar_range i
  have hd := diffPattern_props dc i
  unfold expectDiffStep
  simp only [store_apply, if_true]
  rw [Nat.mod_eq_of_lt (show patternChar i < 256 by omega)]
  unfold diffPattern at hd ⊢
  by_cases h : patternChar i = dc
  · rw [if_pos h] at hd
    simp only [if_pos h, store_apply, if_true]
    rw [Nat.mod_eq_of_lt hd.2.2, Nat.mod_eq_of_lt hd.2.2]
    split_ifs <;> rfl
  · simp only [if_neg h, store_apply, if_true, Nat.mod_mod]
    rw [Nat.mod_eq_of_lt (show patternChar i < 256 by omega)]

/-- The memory after the fill loop of `doStrcmpExpectDiff`, in closed form. -/
theorem expectDiffFill_apply (a1 a2 dc : Nat) (m : Mem) (x : Nat)
    (hdisj : a1 + 1024 ≤ a2 ∨ a2 + 1024 ≤ a1) :
    expectDiffFill a1 a2 dc m x =
      if a1 ≤ x ∧ x < a1 + 1024 then diffPattern dc (x - a1)
      else if a2 ≤ x ∧ x < a2 + 1024 then diffPattern dc (x - a2) else m x := by
  unfold expectDiffFill MAX_STRCMP_TEST_SIZE
  exact pairFold_apply (expectDiffStep a1 a2 dc) a1 a2 (diffPattern dc) (diffPattern dc)
    (expectDiffStep_apply a1 a2 dc) 1024 hdisj m x

/-- The index of `bad` in its string. -/
theorem expectDiffBad_index (s : Nat) (d : Align2) (hd : d ∈ diffAligns)
    (hfit : s + 1024 + 128 < 2 ^ 64) :
    ∃ p, expectDiffBad s d = s + p ∧ 513 ≤ p ∧ p ≤ 531 := by
  obtain ⟨ht, ha, hm⟩ := diffAligns_shape d hd
  unfold expectDiffBad MAX_STRCMP_TEST_SIZE
  have hb := getAlignedPtr_table_bounds (s + 1024 / 2) d.a0 d.a1 ht (by omega)
  refine ⟨getAlignedPtr (s + 1024 / 2) d.a0 d.a1 - s, by omega, by omega, ?_⟩
  have h2 := hb.2
  omega
/-- Both strings hold the fill pattern of the difference test at the indices `0..1023`. -/
theorem expectDiffSetup_pattern (a1 a2 dc : Nat) (m : Mem)
    (hdisj : a1 + 1025 ≤ a2 ∨ a2 + 1025 ≤ a1) (i : Nat) (hi : i < 1024) :
    expectDiffSetup a1 a2 dc m (a1 + i) = diffPattern dc i
    ∧ expectDiffSetup a1 a2 dc m (a2 + i) = diffPattern dc i := by
  unfold expectDiffSetup MAX_STRCMP_TEST_SIZE
  simp only [store_apply]
  constructor
  · rw [if_neg (by omega), if_neg (by omega), expectDiffFill_apply a1 a2 dc m _ (by omega),
      if_pos (by omega), Nat.add_sub_cancel_left]
  · rw [if_neg (by omega), if_neg (by omega), expectDiffFill_apply a1 a2 dc m _ (by omega),
      if_neg (by omega), if_pos (by omega), Nat.add_sub_cancel_left]

/-- Storing `diff_char` at index `p` of one of two strings that hold the fill pattern. -/
theorem diffInjected_store (M : Mem) (s t p dc : Nat) (hdc : dc < 256)
    (hM : ∀ i, i < 1024 → M (s + i) = diffPattern dc i ∧ M (t + i) = diffPattern dc i)
    (hdisj : s + 1025 ≤ t ∨ t + 1025 ≤ s) (hp1 : 513 ≤ p) (hp2 : p ≤ 531) :
    DiffInjected M (store M (s + p) dc) s t p dc := by
  have hpat := diffPattern_props dc p
  unfold DiffInjected MAX_STRCMP_TEST_SIZE
  refine ⟨hp1, hp2, by omega, ?_, ?_, ?_, ?_, ?_, ?_⟩
  · rw [(hM p (by omega)).1]
    exact hpat.1
  · rw [(hM p (by omega)).1]
    exact hpat.2.1
  · rw [store_apply, if_pos rfl, Nat.mod_eq_of_lt hdc]
  · intro x hx
    rw [store_apply, if_neg hx]
  · rw [store_apply, if_pos rfl, Nat.mod_eq_of_lt hdc, store_apply, if_neg (by omega),
      (hM p (by omega)).2]
    exact fun h => hpat.1 h.symm
  · intro i hi
    rw [store_apply, if_neg (by omega), store_apply, if_neg (by omega),
      (hM i (by omega)).1, (hM i (by omega)).2]

/-- Restoring the saved byte undoes the first injection. -/
theorem expectDiffRestore_inject1 (a1 a2 dc : Nat) (d : Align2) (m : Mem) (p : Nat)
    (hbad : expectDiffBad a1 d = a1 + p) (hp : p < 1024)
    (hdisj : a1 + 1025 ≤ a2 ∨ a2 + 1025 ≤ a1) :
    expectDiffRestore a1 d (expectDiffSetup a1 a2 dc m (expectDiffBad a1 d))
        (expectDiffInject1 a1 d dc (expectDiffSetup a1 a2 dc m))
      = expectDiffSetup a1 a2 dc m := by
  funext x
  unfold expectDiffRestore expectDiffInject1
  rw [hbad]
  simp only [store_apply]
  by_cases hx : x = a1 + p
  · rw [if_pos hx, hx, (expectDiffSetup_pattern a1 a2 dc m hdisj p hp).1]
    exact Nat.mod_eq_of_lt (diffPattern_props dc p).2.2
  · rw [if_neg hx, if_neg hx]

/-- The difference test builds what `DiffTestBuilt` says, for strings that do not overlap. -/
theorem diffTestBuilt_of_disjoint (a1 a2 : Nat) (d : Align2) (dc : Nat) (m : Mem)
    (hd : d ∈ diffAligns) (hdc : dc < 256)
    (hfit1 : a1 + 1024 + 128 < 2 ^ 64) (hfit2 : a2 + 1024 + 128 < 2 ^ 64)
    (hdisj : a1 + 1025 ≤ a2 ∨ a2 + 1025 ≤ a1) :
    DiffTestBuilt a1 a2 d dc m := by
  obtain ⟨p1, hb1, hp1a, hp1b⟩ := expectDiffBad_index a1 d hd hfit1
  obtain ⟨p2, hb2, hp2a, hp2b⟩ := expectDiffBad_index a2 d hd hfit2
  have hpat := expectDiffSetup_pattern a1 a2 dc m hdisj
  have hfill1 : ∀ i, i < 1024 → expectDiffFill a1 a2 dc m (a1 + i) = diffPattern dc i := by
    intro i hi
    rw [expectDiffFill_apply a1 a2 dc m _ (by omega), if_pos (by omega),
      Nat.add_sub_cancel_left]
  have hfill2 : ∀ i, i < 1024 → expectDiffFill a1 a2 dc m (a2 + i) = diffPattern dc i := by
    intro i hi
    rw [expectDiffFill_apply a1 a2 dc m _ (by omega), if_neg (by omega), if_pos (by omega),
      Nat.add_sub_cancel_left]
  have hz1 : expectDiffSetup a1 a2 dc m (a1 + 1024) = 0 := by
    unfold expectDiffSetup MAX_STRCMP_TEST_SIZE
    rw [store_apply, if_neg (by omega), store_apply, if_pos rfl]
  have hz2 : expectDiffSetup a1 a2 dc m (a2 + 1024) = 0 := by
    unfold expectDiffSetup MAX_STRCMP_TEST_SIZE
    rw [store_apply, if_pos rfl]
  have h3 : expectDiffCall3 a1 a2 d dc m = expectDiffCall1 a1 a2 dc m := by
    unfold expectDiffCall3 expectDiffCall2 expectDiffCall1
    exact expectDiffRestore_inject1 a1 a2 dc d m p1 hb1 (by omega) hdisj
  unfold DiffTestBuilt MAX_STRCMP_TEST_SIZE
  refine ⟨?_, ?_, hz1, hz2, ?_, ⟨p1, hb1, ?_⟩, h3, ⟨p2, hb2, ?_⟩⟩
  · intro i hi
    rw [hfill1 i hi, hfill2 i hi]
    exact ⟨(diffPattern_props dc i).1, (diffPattern_props dc i).1⟩
  · intro i hi
    unfold expectDiffCall1
    rw [(hpat i hi).1, (hpat i hi).2, hfill1 i hi, hfill2 i hi]
    exact ⟨rfl, rfl, (diffPattern_props dc i).2.1⟩
  · intro i hi
    unfold expectDiffCall1
    rcases Nat.lt_or_eq_of_le hi with h | h
    · rw [(hpat i h).1, (hpat i h).2]
    · rw [h, hz1, hz2]
  · unfold expectDiffCall2 expectDiffCall1 expectDiffInject1
    rw [hb1]
    exact diffInjected_store _ a1 a2 p1 dc hdc hpat hdisj hp1a hp1b
  · rw [h3]
    unfold expectDiffCall4 expectDiffInject2
    rw [h3, hb2]
    unfold expectDiffCall1
    exact diffInjected_store _ a2 a1 p2 dc hdc (fun i hi => ⟨(hpat i hi).2, (hpat i hi).1⟩)
      (by omega) hp2a hp2b

/-- The result of `doStrcmpExpectDiff` is the verdict of the comparator on the memories of
the four calls: 0 on the first and the third, non-zero on the second and the fourth. -/
theorem doStrcmpExpectDiff_result (f : StrcmpFn) (string1 string2 : Nat) (d : Align2)
    (align : Align4) (dc : Nat) (m : Mem) :
    (doStrcmpExpectDiff f string1 string2 d align dc m).2 = true ↔
      (f (expectDiffCall1 (getAlignedPtr string1 align.a0 align.a1)
            (getAlignedPtr string2 align.a2 align.a3) dc m)
          (getAlignedPtr string1 align.a0 align.a1) (getAlignedPtr string2 align.a2 align.a3) = 0
       ∧ f (expectDiffCall2 (getAlignedPtr string1 align.a0 align.a1)
            (getAlignedPtr string2 align.a2 align.a3) d dc m)
          (getAlignedPtr string1 align.a0 align.a1) (getAlignedPtr string2 align.a2 align.a3) ≠ 0
       ∧ f (expectDiffCall3 (getAlignedPtr string1 align.a0 align.a1)
            (getAlignedPtr string2 align.a2 align.a3) d dc m)
          (getAlignedPtr string1 align.a0 align.a1) (getAlignedPtr string2 align.a2 align.a3) = 0
       ∧ f (expectDiffCall4 (getAlignedPtr string1 align.a0 align.a1)
            (getAlignedPtr string2 align.a2 align.a3) d dc m)
          (getAlignedPtr string1 align.a0 align.a1) (getAlignedPtr string2 align.a2 align.a3)
            ≠ 0) := by
  unfold doStrcmpExpectDiff expectDiffCall4 expectDiffCall3 expectDiffCall2 expectDiffCall1
  simp only []
  split_ifs <;> simp_all

/-! ## Helper lemmas on the equal-strings test -/

theorem expectEqualLoop_append (f : StrcmpFn) (a1 a2 : Nat) (l1 l2 : List Nat) (m : Mem) :
    expectEqualLoop f a1 a2 (l1 ++ l2) m =
      if (expectEqualLoop f a1 a2 l1 m).2 then
        expectEqualLoop f a1 a2 l2 (expectEqualLoop f a1 a2 l1 m).1
      else expectEqualLoop f a1 a2 l1 m := by
  induction l1 generalizing m with
  | nil => simp [expectEqualLoop]
  | cons i rest ih =>
    simp only [List.cons_append, expectEqualLoop]
    split
    · simp
    · exact ih _

/-- The loop of `doStrcmpExpectEqual` over the lengths `0, ..., n - 1`: it returns true
exactly when the comparator returns 0 on the memory of each call, and then it leaves the
memory of the last call; at the first call on which the comparator returns non-zero it
returns false and leaves the memory of that call. -/
theorem expectEqualLoop_range (f : StrcmpFn) (a1 a2 : Nat) (m : Mem) (n : Nat) :
    ((expectEqualLoop f a1 a2 (List.range n) m).2 = true ↔
        ∀ i, i < n → f (expectEqualCallState a1 a2 m i) a1 a2 = 0)
    ∧ ((expectEqualLoop f a1 a2 (List.range n) m).2 = true →
        (expectEqualLoop f a1 a2 (List.range n) m).1 = expectEqualAfter a1 a2 n m)
    ∧ (∀ i, i < n → (∀ j, j < i → f (expectEqualCallState a1 a2 m j) a1 a2 = 0) →
        f (expectEqualCallState a1 a2 m i) a1 a2 ≠ 0 →
        expectEqualLoop f a1 a2 (List.range n) m = (expectEqualCallState a1 a2 m i, false)) := by
  induction n with
  | zero =>
    refine ⟨?_, ?_, ?_⟩
    · simp [expectEqualLoop]
    · intro _
      rfl
    · intro i hi
      exact absurd hi (Nat.not_lt_zero i)
  | succ n ih =>
    obtain ⟨ih1, ih2, ih3⟩ := ih
    rw [List.range_succ, expectEqualLoop_append]
    by_cases hprev : (expectEqualLoop f a1 a2 (List.range n) m).2 = true
    · have hall := ih1.mp hprev
      have hmem := ih2 hprev
      rw [if_pos hprev, hmem]
      have hstep : expectEqualLoop f a1 a2 [n] (expectEqualAfter a1 a2 n m) =
          if f (expectEqualCallState a1 a2 m n) a1 a2 ≠ 0 then
            (expectEqualCallState a1 a2 m n, false)
          else (expectEqualCallState a1 a2 m n, true) := by
        simp only [expectEqualLoop, expectEqualCallState, expectEqualAfter]
      rw [hstep]
      by_cases hn : f (expectEqualCallState a1 a2 m n) a1 a2 = 0
      · rw [if_neg (by simp [hn])]
        refine ⟨?_, ?_, ?_⟩
        · constructor
          · intro _ i hi
            rcases Nat.lt_succ_iff_lt_or_eq.mp hi with h | h
            · exact hall i h
            · rw [h]; exact hn
          · intro _
            rfl
        · intro _
          rfl
        · intro i hi hbefore hfail
          rcases Nat.lt_succ_iff_lt_or_eq.mp hi with h | h
          · exact absurd (hall i h) hfail
          · rw [h] at hfail
            exact absurd hn hfail
      · rw [if_pos hn]
        refine ⟨?_, ?_, ?_⟩
        · constructor
          · intro h
            exact absurd h (by simp)
          · intro h
            exact absurd (h n (Nat.lt_succ_self n)) hn
        · intro h
          exact absurd h (by simp)
        · intro i hi hbefore hfail
          rcases Nat.lt_succ_iff_lt_or_eq.mp hi with h | h
          · exact absurd (hall i h) hfail
          · rw [h]
    · rw [if_neg hprev]
      have hex : ¬ ∀ i, i < n → f (expectEqualCallState a1 a2 m i) a1 a2 = 0 :=
        fun h => hprev (ih1.mpr h)
      refine ⟨?_, ?_, ?_⟩
      · constructor
        · intro h
          exact absurd h hprev
        · intro h
          exact absurd (fun i hi => h i (Nat.lt_succ_of_lt hi)) hex
      · intro h
        exact absurd h hprev
      · intro i hi hbefore hfail
        rcases Nat.lt_succ_iff_lt_or_eq.mp hi with h | h
        · exact ih3 i h hbefore hfail
        · rw [h] at hbefore
          exact absurd hbefore hex

/-! ## Theorems -/

/-- C1: for every base address, every power-of-two alignment `a = 2 ^ k` representable
as an `int` and every non-negative `or_mask`, the address `r` returned by
`getAlignedPtr` satisfies `r mod a = or_mask mod a` and `r mod (2 * a) ≠ 0`. -/
theorem getAlignedPtr_alignment (base k m : Nat) (hk : k ≤ 30) :
    ((getAlignedPtr base ((2 ^ k : Nat) : Int) (m : Int) : Nat) : Int) % ((2 ^ k : Nat) : Int)
        = (m : Int) % ((2 ^ k : Nat) : Int)
      ∧ getAlignedPtr base ((2 ^ k : Nat) : Int) (m : Int) % (2 * 2 ^ k) ≠ 0 := by
  obtain ⟨q, hq⟩ := getAlignedPtr_pow_two base k m hk
  have hd64 : 2 ^ k ∣ 2 ^ 64 := Nat.pow_dvd_pow 2 (by omega)
  constructor
  · rw [hq]
    have : ((2 ^ k * q) ||| ((2 ^ k ||| m) % 2 ^ 64)) % 2 ^ k = m % 2 ^ k := by
      rw [or_mod_two_pow, Nat.mod_mod_of_dvd _ hd64, or_mod_two_pow, Nat.mul_mod_right,
        Nat.mod_self, Nat.zero_or, Nat.zero_or]
    exact_mod_cast this
  · rw [hq]
    intro h0
    have hbit : (((2 ^ k * q) ||| ((2 ^ k ||| m) % 2 ^ 64)) % (2 * 2 ^ k)).testBit k = true := by
      have hk64 : k < 64 := by omega
      have hk1 : k < k + 1 := Nat.lt_succ_self k
      rw [← pow_succ', Nat.testBit_mod_two_pow, Nat.testBit_or, Nat.testBit_mod_two_pow,
        Nat.testBit_or, Nat.testBit_two_pow]
      simp only [hk64, hk1, decide_True, Bool.true_and, Bool.true_or, Bool.or_true]
    rw [h0, Nat.zero_testBit] at hbit
    exact Bool.false_ne_true hbit

/-- C1 instance: base `0x1003`, alignment `4`, mask `1`. -/
theorem getAlignedPtr_alignment_witness :
    ((getAlignedPtr 0x1003 ((2 ^ 2 : Nat) : Int) ((1 : Nat) : Int) : Nat) : Int) % ((2 ^ 2 : Nat) : Int)
        = ((1 : Nat) : Int) % ((2 ^ 2 : Nat) : Int)
      ∧ getAlignedPtr 0x1003 ((2 ^ 2 : Nat) : Int) ((1 : Nat) : Int) % (2 * 2 ^ 2) ≠ 0 :=
  getAlignedPtr_alignment 0x1003 2 1 (by decide)

/-- C2: for every base address, every power-of-two alignment `a = 2 ^ k` representable
as an `int` and every non-negative `or_mask`, the bits of the returned address `r` below
bit `2 * a` are those of `a | or_mask`: `r & (2 * a - 1) = (a | or_mask) & (2 * a - 1)`;
and when `or_mask < a`, `r mod (2 * a) = a + or_mask`. -/
theorem getAlignedPtr_low_bits (base k m : Nat) (hk : k ≤ 30) :
    getAlignedPtr base ((2 ^ k : Nat) : Int) (m : Int) &&& (2 * 2 ^ k - 1)
        = (2 ^ k ||| m) &&& (2 * 2 ^ k - 1)
      ∧ (m < 2 ^ k →
          getAlignedPtr base ((2 ^ k : Nat) : Int) (m : Int) % (2 * 2 ^ k) = 2 ^ k + m) := by
  obtain ⟨q, hq⟩ := getAlignedPtr_pow_two base k m hk
  have hd64 : 2 ^ (k + 1) ∣ 2 ^ 64 := Nat.pow_dvd_pow 2 (by omega)
  have hmod : getAlignedPtr base ((2 ^ k : Nat) : Int) (m : Int) % 2 ^ (k + 1)
      = (2 ^ k ||| m) % 2 ^ (k + 1) := by
    rw [hq, or_mod_two_pow, Nat.mod_mod_of_dvd _ hd64, ← or_mod_two_pow]
    exact or_mul_pow_two_mod k q m
  constructor
  · rw [← pow_succ', Nat.and_pow_two_sub_one_eq_mod, Nat.and_pow_two_sub_one_eq_mod]
    exact hmod
  · intro hm
    rw [← pow_succ', hmod]
    have hor : 2 ^ k ||| m = 2 ^ k + m := by
      have := Nat.mul_add_lt_is_or hm 1
      rw [Nat.mul_one] at this
      exact this.symm
    rw [hor]
    apply Nat.mod_eq_of_lt
    rw [pow_succ]
    omega

/-- C2 instance: base `0x2000`, alignment `8`, mask `3`. -/
theorem getAlignedPtr_low_bits_witness :
    getAlignedPtr 0x2000 ((2 ^ 3 : Nat) : Int) ((3 : Nat) : Int) &&& (2 * 2 ^ 3 - 1)
        = (2 ^ 3 ||| 3) &&& (2 * 2 ^ 3 - 1)
      ∧ getAlignedPtr 0x2000 ((2 ^ 3 : Nat) : Int) ((3 : Nat) : Int) % (2 * 2 ^ 3) = 2 ^ 3 + 3 :=
  ⟨(getAlignedPtr_low_bits 0x2000 3 3 (by decide)).1,
   (getAlignedPtr_low_bits 0x2000 3 3 (by decide)).2 (by decide)⟩

/-- C3: with `alignment == 0`, `getAlignedPtr` returns the base pointer unchanged, for
every base address and every `or_mask`. -/
theorem getAlignedPtr_zero (base : Nat) (or_mask : Int) :
    getAlignedPtr base 0 or_mask = base := by
  unfold getAlignedPtr
  simp

/-- C4: `verifyFencepost` returns true exactly when the 8 bytes `buffer[0..7]` are
`0xDE,0xAD,0xDE,0xAD,0xDE,0xAD,0xDE,0xAD`; it returns true right after `setFencepost`
at the same position; and from a state on which it returns true, changing any single one of
the 8 bytes to a different value makes it return false. -/
theorem verifyFencepost_exact (m : Mem) (buffer : Nat) :
    (verifyFencepost m buffer = true ↔
      m buffer = 0xde ∧ m (buffer + 1) = 0xad ∧ m (buffer + 2) = 0xde ∧
      m (buffer + 3) = 0xad ∧ m (buffer + 4) = 0xde ∧ m (buffer + 5) = 0xad ∧
      m (buffer + 6) = 0xde ∧ m (buffer + 7) = 0xad)
    ∧ verifyFencepost (setFencepost m buffer) buffer = true
    ∧ (verifyFencepost m buffer = true → ∀ k v, k < 8 → v ≠ m (buffer + k) →
        verifyFencepost (Function.update m (buffer + k) v) buffer = false) := by
  refine ⟨?_, ?_, ?_⟩
  · rw [verifyFencepost_iff]
    unfold FenceIntact FENCEPOST_LENGTH
    constructor
    · intro h
      have h0 := h 0 (by omega)
      have h1 := h 1 (by omega)
      have h2 := h 2 (by omega)
      have h3 := h 3 (by omega)
      have h4 := h 4 (by omega)
      have h5 := h 5 (by omega)
      have h6 := h 6 (by omega)
      have h7 := h 7 (by omega)
      simp only [fenceByte, Nat.add_zero] at h0 h1 h2 h3 h4 h5 h6 h7
      exact ⟨h0, h1, h2, h3, h4, h5, h6, h7⟩
    · rintro ⟨h0, h1, h2, h3, h4, h5, h6, h7⟩ k hk
      interval_cases k <;> simp [fenceByte] <;> assumption
  · exact (verifyFencepost_iff _ _).mpr (fenceIntact_setFencepost m buffer)
  · intro hv k v hk hne
    rw [verifyFencepost_eq_false_iff]
    intro hint
    have hold := (verifyFencepost_iff _ _).mp hv k hk
    have hnew := hint k hk
    rw [Function.update_same] at hnew
    exact hne (hnew.trans hold.symm)

/-- C4 instance: a fencepost set at address 16 verifies, and clobbering its byte 3 with
the value 7 is detected. -/
theorem verifyFencepost_exact_witness :
    verifyFencepost (setFencepost (fun _ => 0) 16) 16 = true
    ∧ verifyFencepost (Function.update (setFencepost (fun _ => 0) 16) (16 + 3) 7) 16 = false :=
  ⟨(verifyFencepost_exact (fun _ => 0) 16).2.1,
   (verifyFencepost_exact (setFencepost (fun _ => 0) 16) 16).2.2
      (verifyFencepost_exact (fun _ => 0) 16).2.1 3 7 (by decide) (by decide)⟩

/-- C5: `setFencepost(buffer)` writes exactly the 8 bytes `buffer[0..7]`, `0xDE` at even
offsets and `0xAD` at odd offsets, and leaves every byte outside `buffer[0..7]` unchanged. -/
theorem setFencepost_writes (m : Mem) (buffer : Nat) :
    (∀ k, k < 8 → setFencepost m buffer (buffer + k) = if k % 2 = 0 then 0xde else 0xad)
    ∧ (∀ x, x < buffer ∨ buffer + 8 ≤ x → setFencepost m buffer x = m x) := by
  constructor
  · intro k hk
    rw [setFencepost_apply, if_pos (by omega), Nat.add_sub_cancel_left]
    rfl
  · intro x hx
    rw [setFencepost_apply, if_neg (by omega)]

/-- C5 instance: a fencepost set at address 16 over a memory of `0x55` bytes. -/
theorem setFencepost_writes_witness :
    setFencepost (fun _ => 0x55) 16 (16 + 5) = 0xad
    ∧ setFencepost (fun _ => 0x55) 16 15 = 0x55
    ∧ setFencepost (fun _ => 0x55) 16 24 = 0x55 :=
  ⟨(setFencepost_writes (fun _ => 0x55) 16).1 5 (by decide),
   (setFencepost_writes (fun _ => 0x55) 16).2 15 (by decide),
   (setFencepost_writes (fun _ => 0x55) 16).2 24 (by decide)⟩

/-- C6: if `runMemcpyTest` returns true for a primitive, then for every row of the
alignment table and every length `n` in `[0, 2048]`, the memory immediately after the
primitive's call satisfied: every `dst_align[j]`, `j < n`, equals `src_align[j]` and is
non-zero; the fencepost at `dst_align[n..n+7]` is intact; and, whenever `dst_align` is not
the allocation pointer, the fencepost at `dst_align[-8..-1]` is intact. Conversely, at the
first trip (row, `n`) in iteration order where any of these fails, the sweep stops with a
failure for that trip and the driver returns false; so the driver returns false as soon
as some trip fails them. -/
theorem runMemcpyTest_detects (f : MemcpyFn) (m : Mem) (dst src : Nat) :
    (runMemcpyTest f m dst src = true →
      ∀ i n, i < memcpyAligns.length → n ≤ MAX_MEMCPY_TEST_SIZE →
        CopyTripVerified f m dst src i n)
    ∧ (∀ i n, i < memcpyAligns.length → n ≤ MAX_MEMCPY_TEST_SIZE →
        (∀ i1 n1, i1 < memcpyAligns.length → n1 ≤ MAX_MEMCPY_TEST_SIZE →
          (i1 < i ∨ (i1 = i ∧ n1 < n)) → CopyTripVerified f m dst src i1 n1) →
        ¬ CopyTripVerified f m dst src i n →
        memcpySweep f m dst src = Sweep.failed i n ∧ runMemcpyTest f m dst src = false)
    ∧ (∀ i n, i < memcpyAligns.length → n ≤ MAX_MEMCPY_TEST_SIZE →
        ¬ CopyTripVerified f m dst src i n → runMemcpyTest f m dst src = false) := by
  have hfirst : runMemcpyTest f m dst src = true →
      ∀ i n, i < memcpyAligns.length → n ≤ MAX_MEMCPY_TEST_SIZE →
        CopyTripVerified f m dst src i n := by
    intro hrun i n hi hn
    unfold runMemcpyTest at hrun
    split at hrun
    · exact absurd hrun (by simp)
    · unfold memcpySweep at hrun
      cases hsw : memcpyRowLoop f dst src 0 memcpyAligns (memcpyInitSrc m src) with
      | done m1 =>
        exact (memcpyRowTripOk_iff f m dst src i n).mp
          (memcpyRowLoop_done f dst src memcpyAligns 0 _ m1 hsw i n hi hn)
      | failed row len =>
        rw [hsw] at hrun
        exact absurd hrun (by simp [Sweep.passed])
  refine ⟨hfirst, ?_, ?_⟩
  · intro i n hi hn hbefore hfail
    have hsw : memcpySweep f m dst src = Sweep.failed i n := by
      unfold memcpySweep
      have := memcpyRowLoop_failed f dst src memcpyAligns 0 (memcpyInitSrc m src) i n hi hn
        (fun k1 t1 hk1 ht1 hlt =>
          (memcpyRowTripOk_iff f m dst src k1 t1).mpr (hbefore k1 t1 hk1 ht1 hlt))
        (by
          rw [← Bool.not_eq_true, memcpyRowTripOk_iff]
          exact hfail)
      rw [this, Nat.zero_add]
    refine ⟨hsw, ?_⟩
    unfold runMemcpyTest
    split
    · rfl
    · rw [hsw]; rfl
  · intro i n hi hn hfail
    cases hrun : runMemcpyTest f m dst src with
    | false => rfl
    | true => exact absurd (hfirst hrun i n hi hn) hfail

/-- C6 instances, for the allocations `dst = 0x10000` and `src = 0x20000`: the driver
passes the reference copy, so the last trip of the last row verified; and a primitive that
zeroes `dst[n]` is caught at the very first trip. -/
theorem runMemcpyTest_detects_witness :
    CopyTripVerified referenceCopy (fun _ => 0) 0x10000 0x20000 37 2048
    ∧ memcpySweep overrunCopy (fun _ => 0) 0x10000 0x20000 = Sweep.failed 0 0
    ∧ runMemcpyTest overrunCopy (fun _ => 0) 0x10000 0x20000 = false :=
  ⟨(runMemcpyTest_detects referenceCopy (fun _ => 0) 0x10000 0x20000).1
      (runMemcpyTest_of_verified referenceCopy (fun _ => 0) 0x10000 0x20000
        (by decide) (by decide)
        (referenceCopy_verified (fun _ => 0) 0x10000 0x20000 rowPlaced_at_instance))
      37 2048 (by decide) (by decide),
   (runMemcpyTest_detects overrunCopy (fun _ => 0) 0x10000 0x20000).2.1 0 0
      (by decide) (by decide)
      (fun i1 n1 _ _ h => absurd h (by omega))
      overrunCopy_not_verified⟩

/-- C7: in the fill driver the row `(0, 0)` is the first row of the table, and for it
`buf_align` is `buf + 8`, not the allocation pointer `buf`: the condition of line 528
holds for every row. So the head fencepost is written at `buf[0..7]` in every trip of that
row, and it is verified: a primitive that zeroes `s[-8]` fails the first trip of the
sweep. -/
theorem memset_row_zero_head_fence (buf len : Nat) (m : Mem) :
    memsetAligns.head? = some ⟨0, 0⟩
    ∧ memsetBufAlign buf ⟨0, 0⟩ = buf + 8
    ∧ memsetBufAlign buf ⟨0, 0⟩ ≠ buf
    ∧ verifyFencepost (memsetPrepare buf (memsetBufAlign buf ⟨0, 0⟩) len m) buf = true
    ∧ memsetSweep underrunFill (fun _ => 0) 0x10000 = Sweep.failed 0 0 := by
  refine ⟨rfl, memsetBufAlign_zero buf, ?_, ?_, memsetSweep_underrunFill⟩
  · rw [memsetBufAlign_zero]
    omega
  · rw [memsetBufAlign_zero, verifyFencepost_iff]
    exact memsetPrepare_head buf len m

/-- C8 as stated fails at the page size 4096: the over-read sub-test also goes through the
length 1024, which is not one of `0, ..., min(4096, 1024) - 1`. -/
theorem checkReadLengths_4096 :
    1024 ∈ checkReadLengths 4096
    ∧ ¬ (1024 ≤ min 4096 MAX_STRCMP_TEST_SIZE - 1)
    ∧ checkReadLengths 4096 ≠ List.range (min 4096 MAX_STRCMP_TEST_SIZE) := by
  have hmem : 1024 ∈ checkReadLengths 4096 := by
    have h := checkReadMaxSize_of_ge 4096 (by decide)
    unfold checkReadLengths
    rw [List.mem_range]
    have h2 : checkReadMaxSize 4096 = 1024 := h
    rw [h2]
    decide
  refine ⟨hmem, by decide, ?_⟩
  intro heq
  rw [heq, List.mem_range] at hmem
  exact absurd hmem (by decide)

/-- C8, amended: for every page size `P ≥ 1` other than 1024, the over-read sub-test goes
through exactly the string lengths `0, 1, ..., min(P - 1, 1024)`, in this order, and no
other length. -/
theorem checkReadLengths_exact (P : Nat) (h1 : 1 ≤ P) (hne : P ≠ 1024) :
    checkReadLengths (P : Int) = List.range (min (P - 1) MAX_STRCMP_TEST_SIZE + 1)
    ∧ ∀ i, i ∈ checkReadLengths (P : Int) ↔ i ≤ min (P - 1) MAX_STRCMP_TEST_SIZE := by
  have hmax : checkReadMaxSize (P : Int) = min (P - 1) MAX_STRCMP_TEST_SIZE := by
    unfold MAX_STRCMP_TEST_SIZE
    rcases Nat.lt_or_ge P 1024 with h | h
    · rw [checkReadMaxSize_of_lt P h1 h]
      omega
    · rw [checkReadMaxSize_of_ge P h]
      omega
  unfold checkReadLengths
  rw [hmax]
  refine ⟨rfl, ?_⟩
  intro i
  rw [List.mem_range, Nat.lt_succ_iff]

/-- C8, amended, instances: the page sizes 4096 and 16. -/
theorem checkReadLengths_exact_witness :
    (checkReadLengths ((4096 : Nat) : Int) = List.range (min (4096 - 1) MAX_STRCMP_TEST_SIZE + 1)
      ∧ ∀ i, i ∈ checkReadLengths ((4096 : Nat) : Int) ↔ i ≤ min (4096 - 1) MAX_STRCMP_TEST_SIZE)
    ∧ checkReadLengths ((16 : Nat) : Int) = List.range (min (16 - 1) MAX_STRCMP_TEST_SIZE + 1) :=
  ⟨checkReadLengths_exact 4096 (by decide) (by decide),
   (checkReadLengths_exact 16 (by decide) (by decide)).1⟩

/-- C9: at the page size 1024 the over-read sub-test goes through the length `i = 1024`,
for which the index `pagesize - i - 1` wraps to `2 ^ 64 - 1`: the string starts one byte
before the two-page region, and the trip stores its first character there. -/
theorem checkRead_underflow_1024 :
    1024 ∈ checkReadLengths 1024
    ∧ checkReadIndex 1024 1024 = 2 ^ 64 - 1
    ∧ ¬ (checkReadIndex 1024 1024 < 1024)
    ∧ checkReadString 1024 0x100000 1024 = 0x100000 - 1
    ∧ checkReadFill 1024 0x100000 0x200000 1024 (fun _ => 0) (0x100000 - 1) = 0x20 := by
  refine ⟨?_, by decide, by decide, by decide, checkReadFill_before_region⟩
  have h2 : checkReadMaxSize 1024 = 1024 := checkReadMaxSize_of_ge 1024 (by decide)
  unfold checkReadLengths
  rw [List.mem_range, h2]
  decide

/-- C10: the pattern byte `32 + (j mod 96)` is never the terminator `0` and always lies in
`0x20..0x7F`, but at `j = 95` it is `0x7F` (DEL), which is outside the printable range
`0x20..0x7E`. -/
theorem patternChar_del :
    patternChar 95 = 0x7f
    ∧ ¬ (0x20 ≤ patternChar 95 ∧ patternChar 95 ≤ 0x7e)
    ∧ (∀ j, patternChar j ≠ 0 ∧ 0x20 ≤ patternChar j ∧ patternChar j ≤ 0x7f) := by
  refine ⟨by decide, by decide, ?_⟩
  intro j
  unfold patternChar
  have := Nat.mod_lt j (show 0 < 96 by decide)
  omega

set_option maxRecDepth 1000000 in
/-- C11: in the difference sweep of `runStrcmpTest`, `doStrcmpExpectDiff` is called
`2 * 8 * 19` times and every one of these calls injects the terminator `'\0'`: for every
row of `diff_aligns` and every row of `string_aligns` there are two calls with `'\0'`, and
no call with a live character. -/
theorem diffSweepCalls_all_terminator :
    diffSweepCalls.length = 2 * 8 * 19
    ∧ (∀ c ∈ diffSweepCalls, c.diff_char = 0)
    ∧ (∀ d ∈ diffAligns, ∀ a ∈ stringAligns, diffSweepCalls.count ⟨d, a, 0⟩ = 2) := by
  decide

/-- C12: `main` returns 0 if and only if the three drivers `runStrcmpTest`, `runMemcpyTest`
and `runMemsetTest` all return true, and returns 1 otherwise; each of the three drivers is
run, once and in this order, also when an earlier driver has failed. -/
theorem main_exit (argv : List String) (result : Driver → Bool → Bool) :
    ((main argv result).1 = 0 ↔
      (result .strcmp (mainVerbose argv) = true ∧ result .memcpy (mainVerbose argv) = true
        ∧ result .memset (mainVerbose argv) = true))
    ∧ ((main argv result).1 = 0 ∨ (main argv result).1 = 1)
    ∧ (main argv result).2 = [Driver.strcmp, Driver.memcpy, Driver.memset] := by
  unfold main mainVerbose
  simp only [andAlso, callDriver, readVar]
  cases result .strcmp (argv.length == 2 && argv.getD 1 "" == "-v") <;>
    cases result .memcpy (argv.length == 2 && argv.getD 1 "" == "-v") <;>
    cases result .memset (argv.length == 2 && argv.getD 1 "" == "-v") <;>
    simp

/-- C13: for every length `len` (in particular every `len` in `[0, 2048]`), the fill value
`(len mod 255) + 1` lies in `1..255`, so it is not zero and truncation to a byte leaves it
unchanged; hence the per-byte check of the driver, which compares the byte `buf_align[j]`
with the `int` value, fails exactly when the stored byte differs from the byte the value
passed to the primitive denotes; it passes on the byte the reference fill stores, and a
trip that verifies found that byte at every index below `len`. -/
theorem memsetValue_byte (len : Nat) :
    1 ≤ memsetValue len ∧ memsetValue len ≤ 255
    ∧ memsetValue len ≠ 0
    ∧ memsetValue len % 256 = memsetValue len
    ∧ (∀ (m : Mem) (a : Nat),
        ((m a : Nat) : Int) ≠ memsetValue len ↔ m a ≠ (memsetValue len % 256).toNat)
    ∧ (∀ (m : Mem) (s j : Nat), j < len →
        ((referenceFill m s (memsetValue len) len (s + j) : Nat) : Int) = memsetValue len)
    ∧ (∀ (m : Mem) (buf buf_align j : Nat),
        memsetVerify m buf buf_align len (memsetValue len) = true → j < len →
        m (buf_align + j) = (memsetValue len % 256).toNat) := by
  have hmod : len % 255 < 255 := Nat.mod_lt _ (by decide)
  have hv : memsetValue len = ((len % 255 + 1 : Nat) : Int) := rfl
  have h256 : memsetValue len % 256 = memsetValue len := by
    rw [hv]
    omega
  have hto : (memsetValue len % 256).toNat = len % 255 + 1 := by
    rw [h256, hv, Int.toNat_ofNat]
  refine ⟨by rw [hv]; omega, by rw [hv]; omega, by rw [hv]; omega, h256, ?_, ?_, ?_⟩
  · intro m a
    rw [hto, hv]
    constructor
    · intro h hc
      exact h (by rw [hc])
    · intro h hc
      exact h (by exact_mod_cast hc)
  · intro m s j hj
    unfold referenceFill
    rw [if_pos (by omega), hto, hv]
  · intro m buf buf_align j hver hj
    have := memsetVerify_bytes m buf buf_align len _ hver j hj
    rw [hto]
    rw [hv] at this
    exact_mod_cast this

/-- C13 instance: the length 2048, whose fill value is 9; a stored byte 9 passes the check
and a stored byte 0 fails it. -/
theorem memsetValue_byte_witness :
    memsetValue 2048 = 9
    ∧ ¬ (((((fun _ => 9) : Mem) 0 : Nat) : Int) ≠ memsetValue 2048)
    ∧ ((((fun _ => 0) : Mem) 0 : Nat) : Int) ≠ memsetValue 2048
    ∧ ((referenceFill (fun _ => 0) 0x10000 (memsetValue 2048) 2048 (0x10000 + 5) : Nat) : Int)
        = memsetValue 2048 :=
  ⟨by decide,
   fun h => (((memsetValue_byte 2048).2.2.2.2.1 (fun _ => 9) 0).mp h) (by decide),
   ((memsetValue_byte 2048).2.2.2.2.1 (fun _ => 0) 0).mpr (by decide),
   (memsetValue_byte 2048).2.2.2.2.2.1 (fun _ => 0) 0x10000 5 (by decide)⟩

/-- C14: after the initialisation loop of `runMemcpyTest`, for every index `i` in
`[0, 6144)` the source byte `src[i]` is non-zero; it is `i mod 256` when `i mod 256 ≠ 0`
and `0xAA` when `i mod 256 = 0`. -/
theorem memcpyInitSrc_pattern (m : Mem) (src i : Nat) (hi : i < 6144) :
    memcpyInitSrc m src (src + i) ≠ 0
    ∧ (i % 256 ≠ 0 → memcpyInitSrc m src (src + i) = i % 256)
    ∧ (i % 256 = 0 → memcpyInitSrc m src (src + i) = 0xaa) := by
  have hval : memcpyInitSrc m src (src + i) = srcPattern i := by
    have := srcKept_memcpyInitSrc m src (src + i) (Nat.le_add_right _ _)
      (by unfold MAX_MEMCPY_BUFFER_SIZE MAX_MEMCPY_TEST_SIZE; omega)
    rw [this, Nat.add_sub_cancel_left]
  rw [hval]
  refine ⟨srcPattern_ne_zero i, ?_, ?_⟩
  · intro h
    unfold srcPattern
    rw [if_neg h]
  · intro h
    unfold srcPattern
    rw [if_pos h]

/-- C14 instances: the source bytes at the indices 5, 256 and 6143. -/
theorem memcpyInitSrc_pattern_witness :
    memcpyInitSrc (fun _ => 0) 0x20000 (0x20000 + 5) = 5 % 256
    ∧ memcpyInitSrc (fun _ => 0) 0x20000 (0x20000 + 256) = 0xaa
    ∧ memcpyInitSrc (fun _ => 0) 0x20000 (0x20000 + 6143) ≠ 0 :=
  ⟨(memcpyInitSrc_pattern (fun _ => 0) 0x20000 5 (by decide)).2.1 (by decide),
   (memcpyInitSrc_pattern (fun _ => 0) 0x20000 256 (by decide)).2.2 (by decide),
   (memcpyInitSrc_pattern (fun _ => 0) 0x20000 6143 (by decide)).1⟩

/-- C15: whenever `verifyFencepost` returns false it reports a mismatch whose index is the
smallest `k` in `[0, 8)` at which `buffer[k]` differs from the sentinel byte expected there
(`0xDE` for even `k`, `0xAD` for odd `k`), whose expected value is that sentinel byte and
whose found value is `buffer[k]`. -/
theorem verifyFencepost_report (m : Mem) (buffer : Nat)
    (h : verifyFencepost m buffer = false) :
    ∃ r, verifyFencepostReport m buffer = some r
      ∧ r.index < 8
      ∧ (∀ k, k < r.index → m (buffer + k) = if k % 2 = 0 then 0xde else 0xad)
      ∧ m (buffer + r.index) ≠ (if r.index % 2 = 0 then 0xde else 0xad)
      ∧ r.expected = (if r.index % 2 = 0 then 0xde else 0xad)
      ∧ r.found = m (buffer + r.index) := by
  unfold verifyFencepost at h
  unfold verifyFencepostReport at h ⊢
  rw [fencepostIndices_eq] at h ⊢
  simp only [verifyFencepostLoop] at h ⊢
  split_ifs at h ⊢ <;> simp only [not_or, not_not] at * <;>
    first
    | (refine ⟨_, rfl, by simp, ?_, ?_, by simp, rfl⟩
       · intro k hk
         interval_cases k <;> simp_all
       · simp_all)
    | exact absurd h (by simp)

/-- C15 instance: a fencepost set at address 16 whose byte 3 is then overwritten with 7. -/
theorem verifyFencepost_report_witness :
    ∃ r, verifyFencepostReport (Function.update (setFencepost (fun _ => 0) 16) 19 7) 16 = some r
      ∧ r.index < 8
      ∧ (∀ k, k < r.index →
          Function.update (setFencepost (fun _ => 0) 16) 19 7 (16 + k)
            = if k % 2 = 0 then 0xde else 0xad)
      ∧ Function.update (setFencepost (fun _ => 0) 16) 19 7 (16 + r.index)
          ≠ (if r.index % 2 = 0 then 0xde else 0xad)
      ∧ r.expected = (if r.index % 2 = 0 then 0xde else 0xad)
      ∧ r.found = Function.update (setFencepost (fun _ => 0) 16) 19 7 (16 + r.index) :=
  verifyFencepost_report (Function.update (setFencepost (fun _ => 0) 16) 19 7) 16 (by decide)

/-- C16: `doStrcmpExpectEqual`, for two buffers that do not overlap, every row of
`string_aligns`, every entry memory and every comparator, calls the comparator for the
lengths `i = 0, 1, ...` in `[0, 1024)` on the memories `expectEqualCallState ... i`: it
returns true exactly when the comparator returns 0 on each of them, and at the first one
on which the comparator returns non-zero it returns false and leaves that memory. On the
memory of the call for the length `i` the two aligned strings agree at every index `0..i`,
have no zero byte below `i` and the terminator at `i`, while at every poison index `j`,
`i < j < i + 64`, the bytes `align_str1[j] = (char)(32 + j)` and
`align_str2[j] = (char)(40 + j)` differ, also after truncation to 8 bits. -/
theorem expectEqual_strings (string1 string2 : Nat) (align : Align4) (m : Mem)
    (halign : align ∈ stringAligns)
    (hfit1 : string1 + (MAX_STRCMP_BUFFER_SIZE + 1) ≤ 2 ^ 64)
    (hfit2 : string2 + (MAX_STRCMP_BUFFER_SIZE + 1) ≤ 2 ^ 64)
    (hdisj : string1 + (MAX_STRCMP_BUFFER_SIZE + 1) ≤ string2
      ∨ string2 + (MAX_STRCMP_BUFFER_SIZE + 1) ≤ string1) :
    (∀ i, i < MAX_STRCMP_TEST_SIZE →
      EqualStrings
        (expectEqualCallState (getAlignedPtr string1 align.a0 align.a1)
          (getAlignedPtr string2 align.a2 align.a3) m i)
        (getAlignedPtr string1 align.a0 align.a1) (getAlignedPtr string2 align.a2 align.a3) i)
    ∧ ∀ test_strcmp : StrcmpFn,
        ((doStrcmpExpectEqual test_strcmp string1 string2 align m).2 = true ↔
          ∀ i, i < MAX_STRCMP_TEST_SIZE →
            test_strcmp
              (expectEqualCallState (getAlignedPtr string1 align.a0 align.a1)
                (getAlignedPtr string2 align.a2 align.a3) m i)
              (getAlignedPtr string1 align.a0 align.a1)
              (getAlignedPtr string2 align.a2 align.a3) = 0)
        ∧ (∀ i, i < MAX_STRCMP_TEST_SIZE →
            (∀ j, j < i →
              test_strcmp
                (expectEqualCallState (getAlignedPtr string1 align.a0 align.a1)
                  (getAlignedPtr string2 align.a2 align.a3) m j)
                (getAlignedPtr string1 align.a0 align.a1)
                (getAlignedPtr string2 align.a2 align.a3) = 0) →
            test_strcmp
              (expectEqualCallState (getAlignedPtr string1 align.a0 align.a1)
                (getAlignedPtr string2 align.a2 align.a3) m i)
              (getAlignedPtr string1 align.a0 align.a1)
              (getAlignedPtr string2 align.a2 align.a3) ≠ 0 →
            doStrcmpExpectEqual test_strcmp string1 string2 align m
              = (expectEqualCallState (getAlignedPtr string1 align.a0 align.a1)
                  (getAlignedPtr string2 align.a2 align.a3) m i, false)) := by
  have hs := stringAligns_shape align halign
  have h1 := alignedString_bounds string1 align.a0 align.a1 hs.1 hfit1
  have h2 := alignedString_bounds string2 align.a2 align.a3 hs.2 hfit2
  refine ⟨?_, ?_⟩
  · intro i hi
    unfold MAX_STRCMP_BUFFER_SIZE MAX_STRCMP_TEST_SIZE at *
    unfold expectEqualCallState expectEqualAfter
    exact equalStrings_expectEqualFill _ _ i _ (by omega)
  · intro test_strcmp
    have hloop := expectEqualLoop_range test_strcmp (getAlignedPtr string1 align.a0 align.a1)
      (getAlignedPtr string2 align.a2 align.a3) m MAX_STRCMP_TEST_SIZE
    exact ⟨hloop.1, hloop.2.2⟩

/-- C16 instance: the buffers `0x10000` and `0x20000`, the row `{8, 3, 8, 0}` and the
zero memory. -/
theorem expectEqual_strings_witness :
    (∀ i, i < MAX_STRCMP_TEST_SIZE →
      EqualStrings
        (expectEqualCallState (getAlignedPtr 0x10000 8 3) (getAlignedPtr 0x20000 8 0)
          (fun _ => 0) i)
        (getAlignedPtr 0x10000 8 3) (getAlignedPtr 0x20000 8 0) i)
    ∧ ∀ test_strcmp : StrcmpFn,
        ((doStrcmpExpectEqual test_strcmp 0x10000 0x20000 ⟨8, 3, 8, 0⟩ (fun _ => 0)).2 = true ↔
          ∀ i, i < MAX_STRCMP_TEST_SIZE →
            test_strcmp
              (expectEqualCallState (getAlignedPtr 0x10000 8 3) (getAlignedPtr 0x20000 8 0)
                (fun _ => 0) i)
              (getAlignedPtr 0x10000 8 3) (getAlignedPtr 0x20000 8 0) = 0)
        ∧ (∀ i, i < MAX_STRCMP_TEST_SIZE →
            (∀ j, j < i →
              test_strcmp
                (expectEqualCallState (getAlignedPtr 0x10000 8 3) (getAlignedPtr 0x20000 8 0)
                  (fun _ => 0) j)
                (getAlignedPtr 0x10000 8 3) (getAlignedPtr 0x20000 8 0) = 0) →
            test_strcmp
              (expectEqualCallState (getAlignedPtr 0x10000 8 3) (getAlignedPtr 0x20000 8 0)
                (fun _ => 0) i)
              (getAlignedPtr 0x10000 8 3) (getAlignedPtr 0x20000 8 0) ≠ 0 →
            doStrcmpExpectEqual test_strcmp 0x10000 0x20000 ⟨8, 3, 8, 0⟩ (fun _ => 0)
              = (expectEqualCallState (getAlignedPtr 0x10000 8 3) (getAlignedPtr 0x20000 8 0)
                  (fun _ => 0) i, false)) :=
  expectEqual_strings 0x10000 0x20000 ⟨8, 3, 8, 0⟩ (fun _ => 0)
    (by decide) (by decide) (by decide) (by decide)

/-- C17: for every base address of a 6144-byte allocation (one that lies in the 64-bit
address space), every row of the respective table and every length `len` in `[0, 2048]`,
what the harness touches lies inside the allocation: in the copy driver
`dst_align - 8 ≥ dst` whenever `dst_align ≠ dst`, `dst_align + len + 8 ≤ dst + 6144` and
`src_align + len ≤ src + 6144`; in the fill driver `buf_align - 8 ≥ buf` and
`buf_align + len + 8 ≤ buf + 6144`. This uses that, without 64-bit wrap, `getAlignedPtr`
returns an address strictly above its base and at most `base + 2 * alignment + or_mask`. -/
theorem harness_bounds (dst src buf : Nat)
    (hdst : dst + MAX_MEMCPY_BUFFER_SIZE ≤ 2 ^ 64)
    (hsrc : src + MAX_MEMCPY_BUFFER_SIZE ≤ 2 ^ 64)
    (hbuf : buf + MAX_MEMSET_BUFFER_SIZE ≤ 2 ^ 64) :
    (∀ e ∈ memcpyAligns, ∀ len, len ≤ MAX_MEMCPY_TEST_SIZE →
        dst ≤ memcpyDstAlign dst e
        ∧ (memcpyDstAlign dst e ≠ dst → dst + 8 ≤ memcpyDstAlign dst e)
        ∧ memcpyDstAlign dst e + len + 8 ≤ dst + MAX_MEMCPY_BUFFER_SIZE
        ∧ src ≤ memcpySrcAlign src e
        ∧ memcpySrcAlign src e + len ≤ src + MAX_MEMCPY_BUFFER_SIZE)
    ∧ (∀ e ∈ memsetAligns, ∀ len, len ≤ MAX_MEMSET_TEST_SIZE →
        buf + 8 ≤ memsetBufAlign buf e
        ∧ memsetBufAlign buf e + len + 8 ≤ buf + MAX_MEMSET_BUFFER_SIZE)
    ∧ (∀ base k m : Nat, k ≤ 30 → base + 2 ^ k < 2 ^ 64 →
        base < getAlignedPtr base ((2 ^ k : Nat) : Int) (m : Int)
        ∧ getAlignedPtr base ((2 ^ k : Nat) : Int) (m : Int) ≤ base + 2 * 2 ^ k + m) := by
  unfold MAX_MEMCPY_BUFFER_SIZE MAX_MEMCPY_TEST_SIZE at *
  unfold MAX_MEMSET_BUFFER_SIZE MAX_MEMSET_TEST_SIZE at *
  refine ⟨?_, ?_, ?_⟩
  · intro e he len hlen
    have hd := memcpyDstAlign_bounds dst e he (by omega)
    have hs := memcpySrcAlign_bounds src e he (by omega)
    refine ⟨hd.1, fun h => le_of_lt (hd.2.1 h), by omega, hs.1, by omega⟩
  · intro e he len hlen
    have hb := memsetBufAlign_bounds buf e he (by omega)
    exact ⟨hb.1, by omega⟩
  · intro base k m hk hfit
    exact getAlignedPtr_bounds base k m hk hfit

/-- C17 instance: the allocations `dst = 0x10000`, `src = 0x20000`, `buf = 0x30000`, the
last row of each table and the length 2048. -/
theorem harness_bounds_witness :
    (0x10000 + 8 ≤ memcpyDstAlign 0x10000 ⟨128, 1, 128, 16⟩
      ∧ memcpyDstAlign 0x10000 ⟨128, 1, 128, 16⟩ + 2048 + 8 ≤ 0x10000 + MAX_MEMCPY_BUFFER_SIZE
      ∧ memcpySrcAlign 0x20000 ⟨128, 1, 128, 16⟩ + 2048 ≤ 0x20000 + MAX_MEMCPY_BUFFER_SIZE)
    ∧ (0x30000 + 8 ≤ memsetBufAlign 0x30000 ⟨8, 7⟩
      ∧ memsetBufAlign 0x30000 ⟨8, 7⟩ + 2048 + 8 ≤ 0x30000 + MAX_MEMSET_BUFFER_SIZE)
    ∧ 0x10008 < getAlignedPtr 0x10008 ((2 ^ 7 : Nat) : Int) ((16 : Nat) : Int) :=
  ⟨⟨((harness_bounds 0x10000 0x20000 0x30000 (by decide) (by decide) (by decide)).1
        ⟨128, 1, 128, 16⟩ (by decide) 2048 (by decide)).2.1 (by decide),
    ((harness_bounds 0x10000 0x20000 0x30000 (by decide) (by decide) (by decide)).1
        ⟨128, 1, 128, 16⟩ (by decide) 2048 (by decide)).2.2.1,
    ((harness_bounds 0x10000 0x20000 0x30000 (by decide) (by decide) (by decide)).1
        ⟨128, 1, 128, 16⟩ (by decide) 2048 (by decide)).2.2.2.2⟩,
   (harness_bounds 0x10000 0x20000 0x30000 (by decide) (by decide) (by decide)).2.1
        ⟨8, 7⟩ (by decide) 2048 (by decide),
   ((harness_bounds 0x10000 0x20000 0x30000 (by decide) (by decide) (by decide)).2.2
        0x10008 7 16 (by decide) (by decide)).1⟩

/-- C18: `doStrcmpExpectDiff`, for two buffers that do not overlap, every character
`diff_char`, every row of `diff_aligns`, every row of `string_aligns`, every entry memory
and every comparator, returns true exactly when the comparator returns 0 on the memory of
the first call, non-zero on that of the second, 0 on that of the third and non-zero on that
of the fourth. These four memories are as `DiffTestBuilt` says: after the fill loop no byte
at the indices `0..1023` of either aligned string equals `diff_char`; at the first call the
two strings are equal, terminated at index 1024; the position that `getAlignedPtr` derives
from `align_str + 512` lies at an index in `[513, 531]` of that string, before the
terminator; writing `diff_char` there changes exactly one live byte, after which the two
strings differ at that index and agree at all earlier indices; the restoration gives back
the memory of the first call; and the same holds for the later injection into the second
string. -/
theorem expectDiff_injection (string1 string2 : Nat) (diff_align : Align2) (align : Align4)
    (diff_char : Nat) (m : Mem)
    (hd : diff_align ∈ diffAligns) (halign : align ∈ stringAligns) (hdc : diff_char < 256)
    (hfit1 : string1 + (MAX_STRCMP_BUFFER_SIZE + 1) ≤ 2 ^ 64)
    (hfit2 : string2 + (MAX_STRCMP_BUFFER_SIZE + 1) ≤ 2 ^ 64)
    (hdisj : string1 + (MAX_STRCMP_BUFFER_SIZE + 1) ≤ string2
      ∨ string2 + (MAX_STRCMP_BUFFER_SIZE + 1) ≤ string1) :
    DiffTestBuilt (getAlignedPtr string1 align.a0 align.a1)
      (getAlignedPtr string2 align.a2 align.a3) diff_align diff_char m
    ∧ ∀ test_strcmp : StrcmpFn,
        ((doStrcmpExpectDiff test_strcmp string1 string2 diff_align align diff_char m).2 = true
          ↔ (test_strcmp
                (expectDiffCall1 (getAlignedPtr string1 align.a0 align.a1)
                  (getAlignedPtr string2 align.a2 align.a3) diff_char m)
                (getAlignedPtr string1 align.a0 align.a1)
                (getAlignedPtr string2 align.a2 align.a3) = 0
            ∧ test_strcmp
                (expectDiffCall2 (getAlignedPtr string1 align.a0 align.a1)
                  (getAlignedPtr string2 align.a2 align.a3) diff_align diff_char m)
                (getAlignedPtr string1 align.a0 align.a1)
                (getAlignedPtr string2 align.a2 align.a3) ≠ 0
            ∧ test_strcmp
                (expectDiffCall3 (getAlignedPtr string1 align.a0 align.a1)
                  (getAlignedPtr string2 align.a2 align.a3) diff_align diff_char m)
                (getAlignedPtr string1 align.a0 align.a1)
                (getAlignedPtr string2 align.a2 align.a3) = 0
            ∧ test_strcmp
                (expectDiffCall4 (getAlignedPtr string1 align.a0 align.a1)
                  (getAlignedPtr string2 align.a2 align.a3) diff_align diff_char m)
                (getAlignedPtr string1 align.a0 align.a1)
                (getAlignedPtr string2 align.a2 align.a3) ≠ 0)) := by
  have hs := stringAligns_shape align halign
  have h1 := alignedString_bounds string1 align.a0 align.a1 hs.1 hfit1
  have h2 := alignedString_bounds string2 align.a2 align.a3 hs.2 hfit2
  refine ⟨?_, ?_⟩
  · unfold MAX_STRCMP_BUFFER_SIZE MAX_STRCMP_TEST_SIZE at *
    exact diffTestBuilt_of_disjoint _ _ diff_align diff_char m hd hdc (by omega) (by omega)
      (by omega)
  · intro test_strcmp
    exact doStrcmpExpectDiff_result test_strcmp string1 string2 diff_align align diff_char m

/-- C18 instance: the buffers `0x10000` and `0x20000`, the rows `{8, 3}` and
`{4, 0, 8, 0}`, and the character `'\0'` that `runStrcmpTest` passes. -/
theorem expectDiff_injection_witness :
    DiffTestBuilt (getAlignedPtr 0x10000 4 0) (getAlignedPtr 0x20000 8 0) ⟨8, 3⟩ 0
      (fun _ => 0)
    ∧ ∀ test_strcmp : StrcmpFn,
        ((doStrcmpExpectDiff test_strcmp 0x10000 0x20000 ⟨8, 3⟩ ⟨4, 0, 8, 0⟩ 0
            (fun _ => 0)).2 = true
          ↔ (test_strcmp
                (expectDiffCall1 (getAlignedPtr 0x10000 4 0) (getAlignedPtr 0x20000 8 0) 0
                  (fun _ => 0))
                (getAlignedPtr 0x10000 4 0) (getAlignedPtr 0x20000 8 0) = 0
            ∧ test_strcmp
                (expectDiffCall2 (getAlignedPtr 0x10000 4 0) (getAlignedPtr 0x20000 8 0)
                  ⟨8, 3⟩ 0 (fun _ => 0))
                (getAlignedPtr 0x10000 4 0) (getAlignedPtr 0x20000 8 0) ≠ 0
            ∧ test_strcmp
                (expectDiffCall3 (getAlignedPtr 0x10000 4 0) (getAlignedPtr 0x20000 8 0)
                  ⟨8, 3⟩ 0 (fun _ => 0))
                (getAlignedPtr 0x10000 4 0) (getAlignedPtr 0x20000 8 0) = 0
            ∧ test_strcmp
                (expectDiffCall4 (getAlignedPtr 0x10000 4 0) (getAlignedPtr 0x20000 8 0)
                  ⟨8, 3⟩ 0 (fun _ => 0))
                (getAlignedPtr 0x10000 4 0) (getAlignedPtr 0x20000 8 0) ≠ 0)) :=
  expectDiff_injection 0x10000 0x20000 ⟨8, 3⟩ ⟨4, 0, 8, 0⟩ 0 (fun _ => 0)
    (by decide) (by decide) (by decide) (by decide) (by decide) (by decide)

/-- C19: if both allocations succeed (non-null blocks of 6144 bytes inside the 64-bit
address space) and are disjoint, and the primitive is the byte-exact reference copy (it
writes `dst[j] = src[j]` for `j < n` and changes no other byte), then `runMemcpyTest`
returns true, for every pair of allocation base addresses and every memory at entry. -/
theorem runMemcpyTest_sound (f : MemcpyFn) (m : Mem) (dst src : Nat)
    (hf : ∀ (m : Mem) (d s n : Nat),
      (∀ j, j < n → f m d s n (d + j) = m (s + j))
      ∧ (∀ x, x < d ∨ d + n ≤ x → f m d s n x = m x))
    (hdst : dst ≠ 0) (hsrc : src ≠ 0)
    (hdfit : dst + MAX_MEMCPY_BUFFER_SIZE ≤ 2 ^ 64)
    (hsfit : src + MAX_MEMCPY_BUFFER_SIZE ≤ 2 ^ 64)
    (hdisj : dst + MAX_MEMCPY_BUFFER_SIZE ≤ src ∨ src + MAX_MEMCPY_BUFFER_SIZE ≤ dst) :
    runMemcpyTest f m dst src = true := by
  rw [eq_referenceCopy f hf]
  exact runMemcpyTest_of_verified referenceCopy m dst src hdst hsrc
    (referenceCopy_verified m dst src (rowPlaced_of_disjoint dst src hdfit hsfit hdisj))

/-- C19 instance: the reference copy, the allocations `dst = 0x20000` and `src = 0x1e800`
(the source block ends where the destination block starts). -/
theorem runMemcpyTest_sound_witness :
    runMemcpyTest referenceCopy (fun _ => 0) 0x20000 0x1e800 = true :=
  runMemcpyTest_sound referenceCopy (fun _ => 0) 0x20000 0x1e800
    (fun m d s n =>
      ⟨fun j hj => by
          unfold referenceCopy
          rw [if_pos (by omega), Nat.add_sub_cancel_left],
       fun x hx => by
          unfold referenceCopy
          rw [if_neg (by omega)]⟩)
    (by decide) (by decide) (by decide) (by decide) (by decide)

end LibcTest
